import Mathlib

/-!
# ChainsDB (op-supervisor/supervisor/backend/db/db.go)

A shallow embedding of the `ChainsDB` orchestrator: the per-chain collections,
the registration operations, the subscription operations, and the two
operations that fan out over every registered log store
(`ResumeFromLastSealedBlock` and `Close`).

Conventions of the embedding:

* a Go `error` is `Option Error` (`none` is `nil`);
* a method with a pointer receiver is a function from the receiver's state to a
  result and the new state;
* every call that `ChainsDB` makes on a log store is appended to a call record
  (`Call`), so that "which store was called, with what, and what came back" can
  be stated;
* `uint64` block numbers and the `uint256` chain identifier are `Nat`: the code
  only stores, compares and prints them.
-/

namespace OpSupervisor

/-! ## Identifiers and plain data -/

/-- The types.ChainID identifier: used as the key of every per-chain collection. -/
abbrev ChainID := Nat

/-- ChainID.String renders the identifier in decimal (used by the `%s` and `%v` verbs). -/
def ChainID.String (id : ChainID) : String := Nat.repr id

/-- A 32-byte common.Hash, kept as a number. -/
abbrev Hash32 := Nat

/-- The eth.BlockID pair. -/
structure BlockID where
  Hash : Hash32
  Number : Nat
  deriving DecidableEq, Repr

/-- The types.BlockSeal triple. -/
structure BlockSeal where
  Hash : Hash32
  Number : Nat
  Timestamp : Nat
  deriving DecidableEq, Repr

/-- The zero value of BlockSeal. -/
def BlockSeal.zero : BlockSeal := { Hash := 0, Number := 0, Timestamp := 0 }

/-- BlockSeal.ID drops the timestamp. -/
def BlockSeal.ID (s : BlockSeal) : BlockID := { Hash := s.Hash, Number := s.Number }

/-- The eth.L1BlockRef record held by `finalizedL1`. -/
structure L1BlockRef where
  Hash : Hash32
  Number : Nat
  ParentHash : Hash32
  Time : Nat
  deriving DecidableEq, Repr

/-- The zero value of L1BlockRef. -/
def L1BlockRef.zero : L1BlockRef := { Hash := 0, Number := 0, ParentHash := 0, Time := 0 }

/-- The types.DerivedPair record delivered on cross-safe feeds. -/
structure DerivedPair where
  DerivedFrom : BlockID
  Derived : BlockID
  deriving DecidableEq, Repr

/-- The types.ExecutingMessage payload of a log: source chain, source log position and checksum. -/
structure ExecutingMessage where
  Chain : Nat
  BlockNum : Nat
  LogIdx : Nat
  Timestamp : Nat
  Hash : Hash32
  deriving DecidableEq, Repr

/-! ## Errors -/

/-- Go error values as the code builds them.
`errorString` is an error without an `Unwrap` method (`errors.New`, or `fmt.Errorf`
with no `%w` verb); `wrapError` is `fmt.Errorf` with one `%w` verb; `joinError1` and
`joinError2` are the `joinError` of `errors.Join` holding one or two members
(`ChainsDB` only ever joins two arguments). -/
inductive Error where
  | errorString (s : String)
  | wrapError (msg : String) (err : Error)
  | joinError1 (e : Error)
  | joinError2 (a b : Error)
  deriving DecidableEq, Repr

/-- The message that the `Error()` method returns. A `joinError` prints its members one a
line. -/
def Error.Message : Error → String
  | .errorString s => s
  | .wrapError msg _ => msg
  | .joinError1 e => e.Message
  | .joinError2 a b => a.Message ++ "\n" ++ b.Message

/-- The errors an error's `Unwrap` method exposes (none, one, or the members of a join). -/
def Error.Unwrap : Error → List Error
  | .errorString _ => []
  | .wrapError _ err => [err]
  | .joinError1 e => [e]
  | .joinError2 a b => [a, b]

/-- The error tree that `errors.Is` walks: the error itself, then, depth first, everything
reachable through `Unwrap`. -/
def Error.tree : Error → List Error
  | .errorString s => [.errorString s]
  | .wrapError msg err => .wrapError msg err :: err.tree
  | .joinError1 e => .joinError1 e :: e.tree
  | .joinError2 a b => .joinError2 a b :: (a.tree ++ b.tree)

/-- The errors.Is test: the target occurs in the error's tree. -/
def errors.Is (err : Option Error) (target : Error) : Bool :=
  match err with
  | none => false
  | some e => decide (target ∈ e.tree)

/-- The errors.Join of two arguments: nil arguments are discarded, nil is returned when
nothing is left, and the members are kept as given (a member that is itself a join is
not flattened). -/
def errors.Join (a b : Option Error) : Option Error :=
  match a, b with
  | none, none => none
  | some x, none => some (.joinError1 x)
  | none, some y => some (.joinError1 y)
  | some x, some y => some (.joinError2 x y)

/-- The members of an aggregate, with nested joins opened up: the individual errors that
were joined, in the order they were joined. -/
def Error.members : Error → List Error
  | .errorString s => [.errorString s]
  | .wrapError msg err => [.wrapError msg err]
  | .joinError1 e => e.members
  | .joinError2 a b => a.members ++ b.members

/-- Modelled from the spec: the sentinel `types.ErrUnknownChain` is declared outside the
source files at hand; the spec names it the "unknown chain" failure. -/
def ErrUnknownChain : Error := .errorString "unknown chain"

/-! ## The concurrent map -/

/-- Modelled from the spec: `locks.RWMap` is declared outside the source files at hand; the
spec describes it as a map guarded by one read/write lock. The entries are kept as an
association list without repeated keys. The order of the list is the order in which
`Range` yields the entries; nothing proved below depends on which order that is, since
every statement is over all maps. -/
structure RWMap (K V : Type) where
  inner : List (K × V)
  nodup : (inner.map Prod.fst).Nodup

namespace RWMap

variable {K V S : Type}

/-- The zero value: no entries. -/
def empty : RWMap K V := ⟨[], List.nodup_nil⟩

/-- Get: the value stored under a key, if any. -/
def Get [DecidableEq K] (m : RWMap K V) (key : K) : Option V :=
  (m.inner.find? (fun e => decide (e.1 = key))).map Prod.snd

/-- Has: whether a key is present. -/
def Has [DecidableEq K] (m : RWMap K V) (key : K) : Bool :=
  (m.Get key).isSome

/-- Overwrite the entry of a key in place, or add one at the end. -/
def setEntry [DecidableEq K] (key : K) (value : V) : List (K × V) → List (K × V)
  | [] => [(key, value)]
  | e :: rest => if e.1 = key then (key, value) :: rest else e :: setEntry key value rest

/-- Set: store a value under a key, replacing the value that was there. -/
def Set [DecidableEq K] (m : RWMap K V) (key : K) (value : V) : RWMap K V :=
  ⟨setEntry key value m.inner, by
    have hkeys : ∀ l : List (K × V), (setEntry key value l).map Prod.fst =
        if key ∈ l.map Prod.fst then l.map Prod.fst else l.map Prod.fst ++ [key] := by
      intro l
      induction l with
      | nil => simp [setEntry]
      | cons e rest ih =>
        by_cases h : e.1 = key
        · simp [setEntry, h]
        · have h' : ¬ key = e.1 := fun h2 => h h2.symm
          simp only [setEntry, h, if_false, List.map_cons, ih, List.mem_cons, h', false_or]
          split <;> simp
    rw [hkeys]
    split
    · exact m.nodup
    · rename_i hk
      rw [List.nodup_append]
      refine ⟨m.nodup, List.nodup_singleton _, ?_⟩
      intro a ha hb
      simp at hb
      subst hb
      exact hk ha⟩

/-- The loop of `Range`: the callback is applied to the entries in turn until it returns
false. The callback may change the state of the object an entry refers to (it is reached
through a pointer) and the variables it captured; it cannot change the keys. -/
def rangeLoop (f : K → V → S → Bool × V × S) : List (K × V) → S → List (K × V) × S
  | [], s => ([], s)
  | (k, v) :: rest, s =>
    match f k v s with
    | (true, v', s') => ((k, v') :: (rangeLoop f rest s').1, (rangeLoop f rest s').2)
    | (false, v', s') => ((k, v') :: rest, s')

/-- Range: call the callback on every entry, stopping early when it returns false. -/
def Range (m : RWMap K V) (f : K → V → S → Bool × V × S) (s : S) : RWMap K V × S :=
  (⟨(rangeLoop f m.inner s).1, by
      have hkeys : ∀ (l : List (K × V)) (s : S),
          (rangeLoop f l s).1.map Prod.fst = l.map Prod.fst := by
        intro l
        induction l with
        | nil => intro s; rfl
        | cons e rest ih =>
          intro s
          obtain ⟨k, v⟩ := e
          simp only [rangeLoop]
          rcases hf : f k v s with ⟨b, v', s'⟩
          cases b <;> simp [ih]
      rw [hkeys]
      exact m.nodup⟩,
   (rangeLoop f m.inner s).2)

end RWMap

/-! ## Objects reached through pointers -/

/-- The address of an object allocated by `ChainsDB`. -/
abbrev Ptr := Nat

/-- A delivery channel handed to a subscription (`chan<- T`), known by its identity. -/
abbrev Chan := Nat

/-- The objects `ChainsDB` allocates itself and keeps pointers to: a cross-unsafe tracker
(`locks.RWValue[types.BlockSeal]`), a finality feed (`gethevent.FeedOf[eth.BlockID]`) and a
cross-safe feed (`gethevent.FeedOf[types.DerivedPair]`). Modelled from the spec: both
types are declared outside the source files at hand; a feed is the list of delivery
channels registered on it, a tracker is the value it guards. -/
inductive Object where
  | tracker (value : BlockSeal)
  | finalityFeed (sinks : List Chan)
  | crossSafeFeed (sinks : List Chan)
  deriving DecidableEq, Repr

/-- The allocated objects, by address: the address of an object is its position. -/
structure Heap where
  cells : List Object
  deriving DecidableEq, Repr

/-- No object allocated yet. -/
def Heap.empty : Heap := ⟨[]⟩

/-- Allocate a new object (`&T{}`): its address is one no earlier object has. -/
def Heap.alloc (h : Heap) (o : Object) : Ptr × Heap := (h.cells.length, ⟨h.cells ++ [o]⟩)

/-- The object at an address. -/
def Heap.get (h : Heap) (p : Ptr) : Option Object := h.cells[p]?

/-- Whether an address has been allocated. -/
def Heap.allocated (h : Heap) (p : Ptr) : Bool := decide (p < h.cells.length)

/-- Subscribe on a feed: the channel is added to the feed's delivery channels. -/
def Object.Subscribe (o : Object) (c : Chan) : Object :=
  match o with
  | .tracker v => .tracker v
  | .finalityFeed sinks => .finalityFeed (sinks ++ [c])
  | .crossSafeFeed sinks => .crossSafeFeed (sinks ++ [c])

/-- Subscribe through a pointer to a feed. -/
def Heap.Subscribe (h : Heap) (p : Ptr) (c : Chan) : Heap :=
  match h.cells[p]? with
  | some o => ⟨h.cells.set p (o.Subscribe c)⟩
  | none => h

/-- The handle a successful subscription returns (`gethevent.Subscription`): it refers to the
feed and the channel it was made for. -/
structure Subscription where
  feed : Ptr
  channel : Chan
  deriving DecidableEq, Repr

/-! ## The stores a chain registers -/

/-- The LogStorage interface, as far as `ChainsDB` and the statements below use it: a store
is its current state together with its methods. `Close` is the embedded `io.Closer`. The
query methods `FindSealedBlock`, `IteratorStartingAt`, `Contains` and `OpenBlock` are never
called by `ChainsDB` and are left out. -/
structure LogStorage (σ : Type) where
  state : σ
  Close : σ → Option Error × σ
  AddLog : Hash32 → BlockID → Nat → Option ExecutingMessage → σ → Option Error × σ
  SealBlock : Hash32 → BlockID → Nat → σ → Option Error × σ
  Rewind : Nat → σ → Option Error × σ
  LatestSealedBlockNum : σ → (Nat × Bool) × σ

/-- A LocalDerivedFromStorage interface value: `ChainsDB` stores it and never calls it, so
only its identity is kept. -/
abbrev LocalDerivedFromStorage := Nat

/-- A CrossDerivedFromStorage interface value (the same interface as the local one). -/
abbrev CrossDerivedFromStorage := LocalDerivedFromStorage

/-- The depset.DependencySet interface value: stored at construction, handed back by
`DependencySet`, never called. -/
abbrev DependencySet := Nat

/-! ## Logging -/

/-- The levels `ChainsDB` logs at. -/
inductive Level where
  | Info
  | Warn
  deriving DecidableEq, Repr

/-- One line written to the logger: level, message and the one key/value pair given. -/
structure LogRecord where
  level : Level
  msg : String
  key : String
  value : Nat
  deriving DecidableEq, Repr

/-- The log.Logger, as the lines written to it so far. -/
abbrev Logger := List LogRecord

/-- Logger.Info appends a line at level Info. -/
def Logger.Info (l : Logger) (msg key : String) (value : Nat) : Logger :=
  l ++ [{ level := .Info, msg := msg, key := key, value := value }]

/-- Logger.Warn appends a line at level Warn. -/
def Logger.Warn (l : Logger) (msg key : String) (value : Nat) : Logger :=
  l ++ [{ level := .Warn, msg := msg, key := key, value := value }]

/-! ## ChainsDB -/

/-- The ChainsDB struct. `objects` is not a field of the Go struct: it holds the trackers
and feeds that the pointers stored in `crossUnsafe`, `l2FinalitySubscription` and
`crossSafeSubscription` refer to. -/
structure ChainsDB (σ : Type) where
  logDBs : RWMap ChainID (LogStorage σ)
  crossUnsafe : RWMap ChainID Ptr
  localDBs : RWMap ChainID LocalDerivedFromStorage
  crossDBs : RWMap ChainID CrossDerivedFromStorage
  l2FinalitySubscription : RWMap ChainID Ptr
  crossSafeSubscription : RWMap ChainID Ptr
  finalizedL1 : L1BlockRef
  depSet : DependencySet
  logger : Logger
  objects : Heap

/-- One call made on a registered log store, with what it returned. -/
inductive Call where
  | LatestSealedBlockNum (chain : ChainID) (n : Nat) (ok : Bool)
  | Rewind (chain : ChainID) (newHeadBlockNum : Nat) (err : Option Error)
  | Close (chain : ChainID) (err : Option Error)
  deriving DecidableEq, Repr

/-- The chain whose store a call was made on. -/
def Call.chain : Call → ChainID
  | .LatestSealedBlockNum chain _ _ => chain
  | .Rewind chain _ _ => chain
  | .Close chain _ => chain

/-- Whether a call is a Close. -/
def Call.isClose : Call → Bool
  | .Close _ _ => true
  | _ => false

/-- Whether a call is a Rewind. -/
def Call.isRewind : Call → Bool
  | .Rewind _ _ _ => true
  | _ => false

variable {σ : Type}

/-- NewChainsDB: every collection starts as the zero value. -/
def NewChainsDB (l : Logger) (depSet : DependencySet) : ChainsDB σ :=
  { logDBs := RWMap.empty
    crossUnsafe := RWMap.empty
    localDBs := RWMap.empty
    crossDBs := RWMap.empty
    l2FinalitySubscription := RWMap.empty
    crossSafeSubscription := RWMap.empty
    finalizedL1 := L1BlockRef.zero
    depSet := depSet
    logger := l
    objects := Heap.empty }

namespace ChainsDB

/-- AddLogDB: warn when the chain already has a log store, then set it. -/
def AddLogDB (db : ChainsDB σ) (chainID : ChainID) (logDB : LogStorage σ) : ChainsDB σ :=
  let logger :=
    if db.logDBs.Has chainID then
      db.logger.Warn "overwriting existing log DB for chain" "chain" chainID
    else db.logger
  { db with logger := logger, logDBs := db.logDBs.Set chainID logDB }

/-- AddLocalDerivedFromDB: warn when the chain already has one, then set it. -/
def AddLocalDerivedFromDB (db : ChainsDB σ) (chainID : ChainID)
    (dfDB : LocalDerivedFromStorage) : ChainsDB σ :=
  let logger :=
    if db.localDBs.Has chainID then
      db.logger.Warn "overwriting existing local derived-from DB for chain" "chain" chainID
    else db.logger
  { db with logger := logger, localDBs := db.localDBs.Set chainID dfDB }

/-- AddCrossDerivedFromDB: warn when the chain already has one, then set it. -/
def AddCrossDerivedFromDB (db : ChainsDB σ) (chainID : ChainID)
    (dfDB : CrossDerivedFromStorage) : ChainsDB σ :=
  let logger :=
    if db.crossDBs.Has chainID then
      db.logger.Warn "overwriting existing cross derived-from DB for chain" "chain" chainID
    else db.logger
  { db with logger := logger, crossDBs := db.crossDBs.Set chainID dfDB }

/-- AddCrossUnsafeTracker: warn when the chain already has one, then set a newly allocated
zero-valued tracker. -/
def AddCrossUnsafeTracker (db : ChainsDB σ) (chainID : ChainID) : ChainsDB σ :=
  let logger :=
    if db.crossUnsafe.Has chainID then
      db.logger.Warn "overwriting existing cross-unsafe tracker for chain" "chain" chainID
    else db.logger
  let (p, objects) := db.objects.alloc (.tracker BlockSeal.zero)
  { db with logger := logger, objects := objects, crossUnsafe := db.crossUnsafe.Set chainID p }

/-- AddSubscriptions: when the chain already has a finality feed, or a cross-safe feed, warn
and return; otherwise set two newly allocated feeds. -/
def AddSubscriptions (db : ChainsDB σ) (chainID : ChainID) : ChainsDB σ :=
  if db.l2FinalitySubscription.Has chainID then
    { db with logger :=
        db.logger.Warn "a subscription for this chain already exists" "chain" chainID }
  else if db.crossSafeSubscription.Has chainID then
    { db with logger :=
        db.logger.Warn "a subscription for this chain already exists" "chain" chainID }
  else
    let (pf, objects1) := db.objects.alloc (.finalityFeed [])
    let (pc, objects2) := objects1.alloc (.crossSafeFeed [])
    { db with
      objects := objects2
      l2FinalitySubscription := db.l2FinalitySubscription.Set chainID pf
      crossSafeSubscription := db.crossSafeSubscription.Set chainID pc }

/-- The error both subscribe methods build:
`fmt.Errorf("cannot subscribe to cross-safe: %w: %s", types.ErrUnknownChain, chainID)`. -/
def subscribeError (chainID : ChainID) : Error :=
  .wrapError
    ("cannot subscribe to cross-safe: " ++ ErrUnknownChain.Message ++ ": " ++
      ChainID.String chainID)
    ErrUnknownChain

/-- SubscribeCrossSafe: look the chain's cross-safe feed up; fail when there is none,
otherwise subscribe the channel on it. -/
def SubscribeCrossSafe (db : ChainsDB σ) (chainID : ChainID) (c : Chan) :
    (Option Subscription × Option Error) × ChainsDB σ :=
  match db.crossSafeSubscription.Get chainID with
  | none => ((none, some (subscribeError chainID)), db)
  | some sub =>
    ((some { feed := sub, channel := c }, none), { db with objects := db.objects.Subscribe sub c })

/-- SubscribeFinalized: look the chain's finality feed up; fail when there is none,
otherwise subscribe the channel on it. -/
def SubscribeFinalized (db : ChainsDB σ) (chainID : ChainID) (c : Chan) :
    (Option Subscription × Option Error) × ChainsDB σ :=
  match db.l2FinalitySubscription.Get chainID with
  | none => ((none, some (subscribeError chainID)), db)
  | some sub =>
    ((some { feed := sub, channel := c }, none), { db with objects := db.objects.Subscribe sub c })

/-- What an operation over all log stores leaves behind: the error it returns, the database
afterwards, and the calls it made on the stores, in order. -/
structure Outcome (σ : Type) where
  err : Option Error
  db : ChainsDB σ
  calls : List Call

/-- The variables the callback of `ResumeFromLastSealedBlock` captures. -/
structure ResumeVars where
  result : Option Error
  logger : Logger
  calls : List Call

/-- The error `ResumeFromLastSealedBlock` builds:
`fmt.Errorf("failed to rewind chain %s to sealed block %d", chain, headNum)`. -/
def rewindError (chain : ChainID) (headNum : Nat) : Error :=
  .errorString
    ("failed to rewind chain " ++ ChainID.String chain ++ " to sealed block " ++
      Nat.repr headNum)

/-- The callback `ResumeFromLastSealedBlock` hands to `Range`. -/
def resumeStep (chain : ChainID) (logStore : LogStorage σ) (vars : ResumeVars) :
    Bool × LogStorage σ × ResumeVars :=
  match logStore.LatestSealedBlockNum logStore.state with
  | ((headNum, false), st) =>
    (true, { logStore with state := st },
      { vars with
        logger := vars.logger.Info "Resuming, but found no DB contents" "chain" chain
        calls := vars.calls ++ [.LatestSealedBlockNum chain headNum false] })
  | ((headNum, true), st) =>
    let logger := vars.logger.Info "Resuming, starting from last sealed block" "head" headNum
    match logStore.Rewind headNum st with
    | (some err, st') =>
      (false, { logStore with state := st' },
        { result := some (rewindError chain headNum)
          logger := logger
          calls := vars.calls ++
            [.LatestSealedBlockNum chain headNum true, .Rewind chain headNum (some err)] })
    | (none, st') =>
      (true, { logStore with state := st' },
        { result := vars.result
          logger := logger
          calls := vars.calls ++
            [.LatestSealedBlockNum chain headNum true, .Rewind chain headNum none] })

/-- ResumeFromLastSealedBlock: rewind every log store to its last sealed block. -/
def ResumeFromLastSealedBlock (db : ChainsDB σ) : Outcome σ :=
  let r := db.logDBs.Range resumeStep { result := none, logger := db.logger, calls := [] }
  { err := r.2.result
    db := { db with logDBs := r.1, logger := r.2.logger }
    calls := r.2.calls }

/-- DependencySet: hand the dependency set back. -/
def DependencySet (db : ChainsDB σ) : OpSupervisor.DependencySet := db.depSet

/-- The variables the callback of `Close` captures. -/
structure CloseVars where
  combined : Option Error
  calls : List Call

/-- The error `Close` builds for one store:
`fmt.Errorf("failed to close log db for chain %v: %w", id, err)`. -/
def closeError (id : ChainID) (err : Error) : Error :=
  .wrapError ("failed to close log db for chain " ++ ChainID.String id ++ ": " ++ err.Message) err

/-- The callback `Close` hands to `Range`. -/
def closeStep (id : ChainID) (logDB : LogStorage σ) (vars : CloseVars) :
    Bool × LogStorage σ × CloseVars :=
  match logDB.Close logDB.state with
  | (some err, st) =>
    (true, { logDB with state := st },
      { combined := errors.Join vars.combined (some (closeError id err))
        calls := vars.calls ++ [.Close id (some err)] })
  | (none, st) =>
    (true, { logDB with state := st },
      { combined := vars.combined
        calls := vars.calls ++ [.Close id none] })

/-- Close: close every log store and join the failures. -/
def Close (db : ChainsDB σ) : Outcome σ :=
  let r := db.logDBs.Range closeStep { combined := none, calls := [] }
  { err := r.2.combined
    db := { db with logDBs := r.1 }
    calls := r.2.calls }

end ChainsDB

/-! ## Vocabulary for the statements -/

/-- What a store's `Close` returns when called on the store as it stands. -/
def LogStorage.closeResult (s : LogStorage σ) : Option Error := (s.Close s.state).1

/-- The store after one call of its `Close`. -/
def LogStorage.afterClose (s : LogStorage σ) : LogStorage σ :=
  { s with state := (s.Close s.state).2 }

/-- The stores whose `Close` fails, each with its chain and the error its `Close` returns, in
the order of the entries. -/
def closeFailures (l : List (ChainID × LogStorage σ)) : List (ChainID × Error) :=
  l.filterMap (fun e => (e.2.closeResult).map (fun err => (e.1, err)))

/-- The individual errors held by a returned error (none when it is nil). -/
def membersOf (err : Option Error) : List Error :=
  match err with
  | none => []
  | some e => e.members

/-- The Close calls made on the store of a chain, among recorded calls. -/
def closeCallsOn (chain : ChainID) (calls : List Call) : List Call :=
  calls.filter (fun c => c.isClose && decide (c.chain = chain))

/-- The Rewind calls made on the store of a chain, among recorded calls. -/
def rewindCallsOn (chain : ChainID) (calls : List Call) : List Call :=
  calls.filter (fun c => c.isRewind && decide (c.chain = chain))

/-- The calls of any kind made on the store of a chain, among recorded calls. -/
def callsOn (chain : ChainID) (calls : List Call) : List Call :=
  calls.filter (fun c => decide (c.chain = chain))

/-- What a store's `LatestSealedBlockNum` returns when called on the store as it stands: the
number and whether there is a sealed block at all. -/
def LogStorage.head (s : LogStorage σ) : Nat × Bool := (s.LatestSealedBlockNum s.state).1

/-- The state of a store after `LatestSealedBlockNum` was called on it. -/
def LogStorage.afterQuery (s : LogStorage σ) : σ := (s.LatestSealedBlockNum s.state).2

/-- The Rewind that resuming issues to a store with a sealed block: a `Rewind` to the number
`LatestSealedBlockNum` just returned. -/
def LogStorage.rewindToHead (s : LogStorage σ) : Option Error × σ :=
  s.Rewind s.head.1 s.afterQuery

/-- The store after resuming went over it: queried, and rewound when it reported a sealed
block. -/
def LogStorage.afterResume (s : LogStorage σ) : LogStorage σ :=
  if s.head.2 then { s with state := s.rewindToHead.2 } else { s with state := s.afterQuery }

/-- The calls resuming makes on one store: the query, and the Rewind when the store reported
a sealed block. -/
def resumeCalls (e : ChainID × LogStorage σ) : List Call :=
  if e.2.head.2 then
    [.LatestSealedBlockNum e.1 e.2.head.1 true, .Rewind e.1 e.2.head.1 e.2.rewindToHead.1]
  else [.LatestSealedBlockNum e.1 e.2.head.1 false]

/-- A store accepts a fresh log on top of block `h`: there is a block numbered `h` such that
`AddLog` at index 0 with that block as parent succeeds, whatever the log is. -/
def LogStorage.OpenAfter (s : LogStorage σ) (h : Nat) : Prop :=
  ∃ parent : BlockID, parent.Number = h ∧
    ∀ (logHash : Hash32) (execMsg : Option ExecutingMessage),
      (s.AddLog logHash parent 0 execMsg s.state).1 = none

/-- The part of the LogStore contract that resuming relies on, for the methods of one store:
`LatestSealedBlockNum` only reads; a successful `Rewind` to the current head removes no
sealed block (the head is still reported); and it reopens accumulation on top of the head
(a fresh log at index 0 is accepted). -/
structure LogStorage.MeetsRewindContract (s : LogStorage σ) : Prop where
  query_reads : ∀ st : σ, (s.LatestSealedBlockNum st).2 = st
  keeps_sealed : ∀ (st st' : σ) (h : Nat),
    (s.LatestSealedBlockNum st).1 = (h, true) → s.Rewind h st = (none, st') →
      (s.LatestSealedBlockNum st').1 = (h, true)
  reopens : ∀ (st st' : σ) (h : Nat),
    (s.LatestSealedBlockNum st).1 = (h, true) → s.Rewind h st = (none, st') →
      LogStorage.OpenAfter { s with state := st' } h

/-! ## A log store following the contract of the spec -/

/-- One recorded log: the hash of its content and its executing message, if it has one. Its
index is its position among the logs of its block. -/
structure LogEntry where
  logHash : Hash32
  execMsg : Option ExecutingMessage
  deriving DecidableEq, Repr

/-- Modelled from the spec: the log store implementation (`logs.DB`) is outside the source
files at hand. This one follows the LogStore contract of the spec: sealed blocks with their
logs (most recent first), the logs accumulated for the open block, whether the store was
closed, and a failure of the storage medium, if one is pending. -/
structure LogDB where
  blocks : List (BlockSeal × List LogEntry)
  pending : List LogEntry
  closed : Bool
  fault : Option Error
  deriving DecidableEq, Repr

namespace LogDB

/-- The error of an operation on a closed store. -/
def errClosed : Error := .errorString "log store is closed"

/-- The error of an append that is out of order or on the wrong parent. -/
def errOutOfOrder : Error := .errorString "log out of order"

/-- The error of a seal that does not continue the chain. -/
def errConflict : Error := .errorString "parent hash does not match the last sealed block"

/-- An empty store. -/
def empty : LogDB := { blocks := [], pending := [], closed := false, fault := none }

/-- AddLog: append one log to the open block. Fails when the parent is not the last sealed
block or the index is not the next one of the open block. -/
def AddLog (logHash : Hash32) (parentBlock : BlockID) (logIdx : Nat)
    (execMsg : Option ExecutingMessage) (d : LogDB) : Option Error × LogDB :=
  if d.closed then (some errClosed, d)
  else match d.fault with
    | some e => (some e, d)
    | none =>
      match d.blocks with
      | [] => (some errOutOfOrder, d)
      | (last, _) :: _ =>
        if last.ID = parentBlock ∧ logIdx = d.pending.length then
          (none, { d with pending := d.pending ++ [{ logHash := logHash, execMsg := execMsg }] })
        else (some errOutOfOrder, d)

/-- SealBlock: close the open block and open the next. Fails when the parent hash is not the
hash of the last sealed block. -/
def SealBlock (parentHash : Hash32) (block : BlockID) (timestamp : Nat) (d : LogDB) :
    Option Error × LogDB :=
  if d.closed then (some errClosed, d)
  else match d.fault with
    | some e => (some e, d)
    | none =>
      let stamped : BlockSeal :=
        { Hash := block.Hash, Number := block.Number, Timestamp := timestamp }
      match d.blocks with
      | [] => (none, { d with blocks := [(stamped, d.pending)], pending := [] })
      | (last, _) :: _ =>
        if last.Hash = parentHash then
          (none, { d with blocks := (stamped, d.pending) :: d.blocks, pending := [] })
        else (some errConflict, d)

/-- Rewind: drop the sealed blocks after the new head and whatever was accumulated for the
open block. -/
def Rewind (newHeadBlockNum : Nat) (d : LogDB) : Option Error × LogDB :=
  if d.closed then (some errClosed, d)
  else match d.fault with
    | some e => (some e, d)
    | none =>
      (none, { d with
        blocks := d.blocks.filter (fun b => decide (b.1.Number ≤ newHeadBlockNum))
        pending := [] })

/-- LatestSealedBlockNum: the number of the most recent sealed block, if there is one. -/
def LatestSealedBlockNum (d : LogDB) : (Nat × Bool) × LogDB :=
  match d.blocks with
  | [] => ((0, false), d)
  | (last, _) :: _ => ((last.Number, true), d)

/-- Close: release the store; a pending failure of the medium is reported. -/
def Close (d : LogDB) : Option Error × LogDB := (d.fault, { d with closed := true })

/-- The store as a LogStorage interface value. -/
def store (d : LogDB) : LogStorage LogDB :=
  { state := d
    Close := Close
    AddLog := AddLog
    SealBlock := SealBlock
    Rewind := Rewind
    LatestSealedBlockNum := LatestSealedBlockNum }

/-- A sealed block used in examples: block `n` has hash `100 + n` and timestamp `1000 + n`. -/
def exampleSeal (n : Nat) : BlockSeal := { Hash := 100 + n, Number := n, Timestamp := 1000 + n }

/-- A store sealed up to block 2 (blocks 0, 1 and 2, the later two with one log each) with
one pending, unsealed log on block 3. -/
def sealedTo2Pending : LogDB :=
  { blocks :=
      [ (exampleSeal 2, [{ logHash := 12, execMsg := none }]),
        (exampleSeal 1, [{ logHash := 11, execMsg := none }]),
        (exampleSeal 0, []) ]
    pending := [{ logHash := 13, execMsg := none }]
    closed := false
    fault := none }

/-- The error of a failing storage medium used in examples. -/
def diskFailure : Error := .errorString "disk failure"

end LogDB

/-- A database holding the given log stores and nothing else. -/
def ChainsDB.withLogDBs (l : List (ChainID × LogStorage σ)) : ChainsDB σ :=
  l.foldl (fun db e => db.AddLogDB e.1 e.2) (NewChainsDB [] 0)

namespace Examples

/-- A store sealed up to block 2 whose storage medium fails: its Rewind and its Close return
the disk failure. -/
def faultyStore : LogStorage LogDB :=
  LogDB.store { LogDB.sealedTo2Pending with fault := some LogDB.diskFailure }

/-- Two healthy stores: chain 1 sealed up to block 2 with a pending log, chain 2 empty. -/
def healthy : ChainsDB LogDB :=
  ChainsDB.withLogDBs [(1, LogDB.sealedTo2Pending.store), (2, LogDB.empty.store)]

/-- Chain 1 healthy, chain 2 with a failing medium, chain 3 healthy. -/
def secondFails : ChainsDB LogDB :=
  ChainsDB.withLogDBs
    [(1, LogDB.sealedTo2Pending.store), (2, faultyStore), (3, LogDB.sealedTo2Pending.store)]

/-- One chain, whose store has a failing medium. -/
def onlyFaulty : ChainsDB LogDB := ChainsDB.withLogDBs [(1, faultyStore)]

end Examples

/-- What "set by overwrite" means for one collection: afterwards the key maps to the value
given, every other key maps to what it mapped to before, and the key has exactly one
entry. -/
def RWMap.Overwrites {K V : Type} [DecidableEq K] (before after : RWMap K V) (key : K)
    (value : V) : Prop :=
  after.Get key = some value ∧
  (∀ other : K, other ≠ key → after.Get other = before.Get other) ∧
  (after.inner.filter (fun e => decide (e.1 = key))).length = 1

/-- What "the feeds of a chain were replaced by fresh feeds" means: afterwards the chain maps
to a finality feed and a cross-safe feed that were not allocated before and that have no
delivery channel. -/
def ChainsDB.ReplacesFeeds (before after : ChainsDB σ) (chainID : ChainID) : Prop :=
  ∃ pf pc : Ptr,
    after.l2FinalitySubscription.Get chainID = some pf ∧
    after.crossSafeSubscription.Get chainID = some pc ∧
    before.objects.allocated pf = false ∧
    before.objects.allocated pc = false ∧
    after.objects.get pf = some (.finalityFeed []) ∧
    after.objects.get pc = some (.crossSafeFeed [])

namespace Examples

/-- Chain 1 has its feeds registered and one channel (7) subscribed on its cross-safe feed. -/
def feedsRegistered : ChainsDB LogDB :=
  (((NewChainsDB [] 0).AddSubscriptions 1).SubscribeCrossSafe 1 7).2

end Examples

/-! ## Operations as data -/

/-- The per-chain collections of a ChainsDB. -/
inductive Collection where
  | logDBs
  | crossUnsafe
  | localDBs
  | crossDBs
  | l2FinalitySubscription
  | crossSafeSubscription
  deriving DecidableEq, Repr

/-- Whether a chain is present in a collection. -/
def ChainsDB.present (db : ChainsDB σ) : Collection → ChainID → Bool
  | .logDBs, chain => db.logDBs.Has chain
  | .crossUnsafe, chain => db.crossUnsafe.Has chain
  | .localDBs, chain => db.localDBs.Has chain
  | .crossDBs, chain => db.crossDBs.Has chain
  | .l2FinalitySubscription, chain => db.l2FinalitySubscription.Has chain
  | .crossSafeSubscription, chain => db.crossSafeSubscription.Has chain

/-- The operations of ChainsDB, with their arguments. -/
inductive Op (σ : Type) where
  | AddLogDB (chainID : ChainID) (logDB : LogStorage σ)
  | AddLocalDerivedFromDB (chainID : ChainID) (dfDB : LocalDerivedFromStorage)
  | AddCrossDerivedFromDB (chainID : ChainID) (dfDB : CrossDerivedFromStorage)
  | AddCrossUnsafeTracker (chainID : ChainID)
  | AddSubscriptions (chainID : ChainID)
  | SubscribeCrossSafe (chainID : ChainID) (c : Chan)
  | SubscribeFinalized (chainID : ChainID) (c : Chan)
  | ResumeFromLastSealedBlock
  | DependencySet
  | Close

/-- The database after an operation (what the operation returns is dropped). -/
def ChainsDB.perform (db : ChainsDB σ) : Op σ → ChainsDB σ
  | .AddLogDB chainID logDB => db.AddLogDB chainID logDB
  | .AddLocalDerivedFromDB chainID dfDB => db.AddLocalDerivedFromDB chainID dfDB
  | .AddCrossDerivedFromDB chainID dfDB => db.AddCrossDerivedFromDB chainID dfDB
  | .AddCrossUnsafeTracker chainID => db.AddCrossUnsafeTracker chainID
  | .AddSubscriptions chainID => db.AddSubscriptions chainID
  | .SubscribeCrossSafe chainID c => (db.SubscribeCrossSafe chainID c).2
  | .SubscribeFinalized chainID c => (db.SubscribeFinalized chainID c).2
  | .ResumeFromLastSealedBlock => db.ResumeFromLastSealedBlock.db
  | .DependencySet => db
  | .Close => db.Close.db

/-- Whether an operation is the registration of a chain in a collection: the `Add` method of
that collection, called for that chain. -/
def Op.registers : Op σ → Collection → ChainID → Bool
  | .AddLogDB chainID _, .logDBs, chain => decide (chainID = chain)
  | .AddLocalDerivedFromDB chainID _, .localDBs, chain => decide (chainID = chain)
  | .AddCrossDerivedFromDB chainID _, .crossDBs, chain => decide (chainID = chain)
  | .AddCrossUnsafeTracker chainID, .crossUnsafe, chain => decide (chainID = chain)
  | .AddSubscriptions chainID, .l2FinalitySubscription, chain => decide (chainID = chain)
  | .AddSubscriptions chainID, .crossSafeSubscription, chain => decide (chainID = chain)
  | _, _, _ => false

/-! ## Reachable states -/

/-- The database reached from a newly constructed one by a sequence of operations. -/
def ChainsDB.reached (l : Logger) (depSet : OpSupervisor.DependencySet) (ops : List (Op σ)) : ChainsDB σ :=
  ops.foldl ChainsDB.perform (NewChainsDB l depSet)

/-! ## InteropAPI (op-node/rollup/interop/managed/api.go) -/

/-- A context.Context, by identity. -/
abbrev Context := Nat

/-- The eth.BlockRef record (the same record as L1BlockRef). -/
abbrev BlockRef := L1BlockRef

/-- The types.Receipts of a block, each receipt by identity. -/
abbrev Receipts := List Nat

/-- A `*gethrpc.Subscription`, by identity. -/
abbrev RPCSubscription := Nat

/-- The ManagedMode backend that InteropAPI forwards to. Its methods are declared outside
the source files at hand and are taken as given: each is a function of its arguments and
the state of the backend, returning its results and the new state. -/
structure ManagedMode (β : Type) where
  ResetEvents : Context → β → (Option RPCSubscription × Option Error) × β
  UnsafeBlocks : Context → β → (Option RPCSubscription × Option Error) × β
  DerivationUpdates : Context → β → (Option RPCSubscription × Option Error) × β
  ExhaustL1Events : Context → β → (Option RPCSubscription × Option Error) × β
  UpdateCrossUnsafe : Context → BlockID → β → Option Error × β
  UpdateCrossSafe : Context → BlockID → BlockID → β → Option Error × β
  UpdateFinalized : Context → BlockID → β → Option Error × β
  AnchorPoint : Context → β → (DerivedPair × Option Error) × β
  Reset : Context → BlockID → BlockID → BlockID → β → Option Error × β
  FetchReceipts : Context → Hash32 → β → (Receipts × Option Error) × β
  BlockRefByNumber : Context → Nat → β → (BlockRef × Option Error) × β
  ChainID : Context → β → (OpSupervisor.ChainID × Option Error) × β
  ProvideL1 : Context → BlockRef → β → Option Error × β

/-- The InteropAPI struct: a pointer to the backend. -/
structure InteropAPI (β : Type) where
  backend : ManagedMode β

namespace InteropAPI

variable {β : Type}

/-- ResetEvents returns `ib.backend.ResetEvents(ctx)`. -/
def ResetEvents (ib : InteropAPI β) (ctx : Context) (st : β) :
    (Option RPCSubscription × Option Error) × β :=
  ib.backend.ResetEvents ctx st

/-- UnsafeBlocks returns `ib.backend.UnsafeBlocks(ctx)`. -/
def UnsafeBlocks (ib : InteropAPI β) (ctx : Context) (st : β) :
    (Option RPCSubscription × Option Error) × β :=
  ib.backend.UnsafeBlocks ctx st

/-- DerivationUpdates returns `m.backend.DerivationUpdates(ctx)`. -/
def DerivationUpdates (m : InteropAPI β) (ctx : Context) (st : β) :
    (Option RPCSubscription × Option Error) × β :=
  m.backend.DerivationUpdates ctx st

/-- ExhaustL1Events returns `m.backend.ExhaustL1Events(ctx)`. -/
def ExhaustL1Events (m : InteropAPI β) (ctx : Context) (st : β) :
    (Option RPCSubscription × Option Error) × β :=
  m.backend.ExhaustL1Events ctx st

/-- UpdateCrossUnsafe returns `ib.backend.UpdateCrossUnsafe(ctx, id)`. -/
def UpdateCrossUnsafe (ib : InteropAPI β) (ctx : Context) (id : BlockID) (st : β) :
    Option Error × β :=
  ib.backend.UpdateCrossUnsafe ctx id st

/-- UpdateCrossSafe returns `ib.backend.UpdateCrossSafe(ctx, derived, derivedFrom)`. -/
def UpdateCrossSafe (ib : InteropAPI β) (ctx : Context) (derived derivedFrom : BlockID)
    (st : β) : Option Error × β :=
  ib.backend.UpdateCrossSafe ctx derived derivedFrom st

/-- UpdateFinalized returns `ib.backend.UpdateFinalized(ctx, id)`. -/
def UpdateFinalized (ib : InteropAPI β) (ctx : Context) (id : BlockID) (st : β) :
    Option Error × β :=
  ib.backend.UpdateFinalized ctx id st

/-- AnchorPoint returns `ib.backend.AnchorPoint(ctx)`. -/
def AnchorPoint (ib : InteropAPI β) (ctx : Context) (st : β) :
    (DerivedPair × Option Error) × β :=
  ib.backend.AnchorPoint ctx st

/-- Reset returns `ib.Reset(ctx, unsafe, safe, finalized)`: the method calls itself, on the
same receiver with the same arguments, and not the backend. `fuel` bounds the depth of the
nested calls that are followed; the result is `none` when the call has not returned within
that depth, and the state is the state of the backend at that point. -/
def Reset (ib : InteropAPI β) (ctx : Context) (unsafeID safeID finalizedID : BlockID) :
    Nat → β → Option (Option Error) × β
  | 0, st => (none, st)
  | fuel + 1, st => Reset ib ctx unsafeID safeID finalizedID fuel st

/-- FetchReceipts returns `ib.backend.FetchReceipts(ctx, blockHash)`. -/
def FetchReceipts (ib : InteropAPI β) (ctx : Context) (blockHash : Hash32) (st : β) :
    (Receipts × Option Error) × β :=
  ib.backend.FetchReceipts ctx blockHash st

/-- BlockRefByNumber returns `ib.backend.BlockRefByNumber(ctx, num)`. -/
def BlockRefByNumber (ib : InteropAPI β) (ctx : Context) (num : Nat) (st : β) :
    (BlockRef × Option Error) × β :=
  ib.backend.BlockRefByNumber ctx num st

/-- ChainID returns `ib.backend.ChainID(ctx)`. -/
def ChainID (ib : InteropAPI β) (ctx : Context) (st : β) :
    (OpSupervisor.ChainID × Option Error) × β :=
  ib.backend.ChainID ctx st

/-- ProvideL1 returns `ib.backend.ProvideL1(ctx, nextL1)`. -/
def ProvideL1 (ib : InteropAPI β) (ctx : Context) (nextL1 : BlockRef) (st : β) :
    Option Error × β :=
  ib.backend.ProvideL1 ctx nextL1 st

end InteropAPI

namespace Examples

/-- A backend that counts the calls made on it: every method succeeds and adds one to the
count. -/
def countingBackend : ManagedMode Nat :=
  { ResetEvents := fun _ n => ((some 0, none), n + 1)
    UnsafeBlocks := fun _ n => ((some 0, none), n + 1)
    DerivationUpdates := fun _ n => ((some 0, none), n + 1)
    ExhaustL1Events := fun _ n => ((some 0, none), n + 1)
    UpdateCrossUnsafe := fun _ _ n => (none, n + 1)
    UpdateCrossSafe := fun _ _ _ n => (none, n + 1)
    UpdateFinalized := fun _ _ n => (none, n + 1)
    AnchorPoint := fun _ n =>
      (({ DerivedFrom := { Hash := 0, Number := 0 }, Derived := { Hash := 0, Number := 0 } },
        none), n + 1)
    Reset := fun _ _ _ _ n => (none, n + 1)
    FetchReceipts := fun _ _ n => (([], none), n + 1)
    BlockRefByNumber := fun _ _ n => ((L1BlockRef.zero, none), n + 1)
    ChainID := fun _ n => ((0, none), n + 1)
    ProvideL1 := fun _ _ n => (none, n + 1) }

/-- The API in front of the counting backend. -/
def countingAPI : InteropAPI Nat := { backend := countingBackend }

end Examples

/-! ## Lemmas on the loop of `Close` -/

/-- Joining the wrapped failures of a list of stores onto an error, as `Close` does. -/
theorem members_join_closeError (c : Option Error) (id : ChainID) (err : Error) :
    membersOf (errors.Join c (some (ChainsDB.closeError id err))) =
      membersOf c ++ [ChainsDB.closeError id err] := by
  cases c <;> simp [errors.Join, membersOf, Error.members, ChainsDB.closeError]

theorem rangeLoop_closeStep_entries (l : List (ChainID × LogStorage σ)) (vars : ChainsDB.CloseVars) :
    (RWMap.rangeLoop ChainsDB.closeStep l vars).1 = l.map (fun e => (e.1, e.2.afterClose)) := by
  induction l generalizing vars with
  | nil => rfl
  | cons e rest ih =>
    obtain ⟨k, s⟩ := e
    simp only [RWMap.rangeLoop, ChainsDB.closeStep]
    rcases h : s.Close s.state with ⟨r, st⟩
    cases r <;> simp [ih, LogStorage.afterClose, h]

theorem rangeLoop_closeStep_calls (l : List (ChainID × LogStorage σ)) (vars : ChainsDB.CloseVars) :
    (RWMap.rangeLoop ChainsDB.closeStep l vars).2.calls =
      vars.calls ++ l.map (fun e => Call.Close e.1 e.2.closeResult) := by
  induction l generalizing vars with
  | nil => simp [RWMap.rangeLoop]
  | cons e rest ih =>
    obtain ⟨k, s⟩ := e
    simp only [RWMap.rangeLoop, ChainsDB.closeStep]
    rcases h : s.Close s.state with ⟨r, st⟩
    cases r <;> simp [ih, LogStorage.closeResult, h]

theorem rangeLoop_closeStep_members (l : List (ChainID × LogStorage σ)) (vars : ChainsDB.CloseVars) :
    membersOf (RWMap.rangeLoop ChainsDB.closeStep l vars).2.combined =
      membersOf vars.combined ++
        (closeFailures l).map (fun p => ChainsDB.closeError p.1 p.2) := by
  induction l generalizing vars with
  | nil => simp [RWMap.rangeLoop, closeFailures]
  | cons e rest ih =>
    obtain ⟨k, s⟩ := e
    simp only [RWMap.rangeLoop, ChainsDB.closeStep]
    rcases h : s.Close s.state with ⟨r, st⟩
    cases r with
    | none => simp [ih, closeFailures, LogStorage.closeResult, h]
    | some err =>
      simp [ih, closeFailures, LogStorage.closeResult, h, members_join_closeError]

theorem members_ne_nil (e : Error) : e.members ≠ [] := by
  induction e with
  | errorString s => simp [Error.members]
  | wrapError msg err _ => simp [Error.members]
  | joinError1 e ih => simpa [Error.members] using ih
  | joinError2 a b iha _ => simp [Error.members, iha]

theorem membersOf_eq_nil (err : Option Error) : membersOf err = [] ↔ err = none := by
  cases err with
  | none => simp [membersOf]
  | some e => simp [membersOf, members_ne_nil]

theorem filter_key_map_of_nodup {α β : Type} [DecidableEq α] (l : List (α × β))
    (h : (l.map Prod.fst).Nodup) (k : α) :
    (l.filter (fun e => decide (e.1 = k))).length = if k ∈ l.map Prod.fst then 1 else 0 := by
  induction l with
  | nil => simp
  | cons e rest ih =>
    simp only [List.map_cons, List.nodup_cons] at h
    by_cases hk : e.1 = k
    · subst hk
      have hnot : e.1 ∉ rest.map Prod.fst := h.1
      have h0 := ih h.2
      rw [if_neg hnot] at h0
      rw [List.filter_cons]
      simp only [decide_True, if_true, List.length_cons, h0, List.map_cons, List.mem_cons,
        true_or]
    · have hk' : ¬ k = e.1 := fun h2 => hk h2.symm
      rw [List.filter_cons]
      simp only [hk, decide_False, Bool.false_eq_true, if_false, ih h.2, List.map_cons,
        List.mem_cons, hk', false_or]

theorem has_iff_mem_keys {α β : Type} [DecidableEq α] (m : RWMap α β) (k : α) :
    m.Has k = true ↔ k ∈ m.inner.map Prod.fst := by
  unfold RWMap.Has RWMap.Get
  rw [Option.isSome_map']
  rw [List.find?_isSome]
  simp only [decide_eq_true_eq, Prod.exists, exists_eq_right, List.mem_map, exists_and_right]

/-! ## C1 -/

/-- C1: `Close` never stops at the first failure. Whatever the registered log stores are and
whichever of their `Close` calls fail, the calls `Close` makes are exactly one `Close` per
entry, in the order of the entries and each with the result that store's `Close` returned
(so stores that come after a failing one are still closed); per chain, the number of
`Close` calls is one when the chain has a log store and zero otherwise; and every store is
left in the state its own `Close` puts it in. -/
theorem close_invokes_every_store_once (db : ChainsDB σ) :
    db.Close.calls = db.logDBs.inner.map (fun e => Call.Close e.1 e.2.closeResult) ∧
    (∀ chain : ChainID,
      (closeCallsOn chain db.Close.calls).length = if db.logDBs.Has chain then 1 else 0) ∧
    db.Close.db.logDBs.inner = db.logDBs.inner.map (fun e => (e.1, e.2.afterClose)) := by
  have hcalls : db.Close.calls =
      db.logDBs.inner.map (fun e => Call.Close e.1 e.2.closeResult) := by
    simp [ChainsDB.Close, RWMap.Range, rangeLoop_closeStep_calls]
  refine ⟨hcalls, ?_, ?_⟩
  · intro chain
    rw [hcalls, closeCallsOn, List.filter_map, List.length_map]
    have h := filter_key_map_of_nodup db.logDBs.inner db.logDBs.nodup chain
    have hfun : ((fun c : Call => c.isClose && decide (c.chain = chain)) ∘
        fun e : ChainID × LogStorage σ => Call.Close e.1 e.2.closeResult) =
        fun e => decide (e.1 = chain) := by
      funext e
      simp [Call.isClose, Call.chain]
    rw [hfun, h]
    by_cases hk : chain ∈ db.logDBs.inner.map Prod.fst
    · simp [hk, (has_iff_mem_keys db.logDBs chain).2 hk]
    · have : db.logDBs.Has chain = false := by
        cases hh : db.logDBs.Has chain with
        | false => rfl
        | true => exact absurd ((has_iff_mem_keys db.logDBs chain).1 hh) hk
      simp [hk, this]
  · simp [ChainsDB.Close, RWMap.Range, rangeLoop_closeStep_entries]

/-! ## C2 -/

/-- C2: `Close` returns nil exactly when every registered store's `Close` returns nil; the
individual errors held by the returned aggregate are, in the order of the entries, one
wrapper per failing store and nothing else; and each wrapper unwraps to that store's own
`Close` error. -/
theorem close_aggregates_all_failures (db : ChainsDB σ) :
    (db.Close.err = none ↔ ∀ e ∈ db.logDBs.inner, e.2.closeResult = none) ∧
    membersOf db.Close.err =
      (closeFailures db.logDBs.inner).map (fun p => ChainsDB.closeError p.1 p.2) ∧
    (∀ (id : ChainID) (err : Error), (ChainsDB.closeError id err).Unwrap = [err]) := by
  have hm : membersOf db.Close.err =
      (closeFailures db.logDBs.inner).map (fun p => ChainsDB.closeError p.1 p.2) := by
    have h := rangeLoop_closeStep_members db.logDBs.inner { combined := none, calls := [] }
    simpa [ChainsDB.Close, RWMap.Range, membersOf] using h
  refine ⟨?_, hm, ?_⟩
  · rw [← membersOf_eq_nil, hm]
    simp only [List.map_eq_nil_iff, closeFailures, List.filterMap_eq_nil_iff]
    constructor
    · intro h e he
      have := h e he
      cases hc : e.2.closeResult with
      | none => rfl
      | some err => simp [hc] at this
    · intro h e he
      simp [h e he]
  · intro id err
    rfl

/-! ## Lemmas on the loop of `ResumeFromLastSealedBlock` -/

theorem resumeStep_empty (k : ChainID) (s : LogStorage σ) (vars : ChainsDB.ResumeVars)
    (h : s.head.2 = false) :
    ChainsDB.resumeStep k s vars =
      (true, s.afterResume,
        { result := vars.result
          logger := vars.logger.Info "Resuming, but found no DB contents" "chain" k
          calls := vars.calls ++ resumeCalls (k, s) }) := by
  unfold ChainsDB.resumeStep
  rcases hq : s.LatestSealedBlockNum s.state with ⟨⟨n, ok⟩, st⟩
  have hok : ok = false := by simpa [LogStorage.head, hq] using h
  subst hok
  simp [LogStorage.afterResume, LogStorage.head, LogStorage.afterQuery, resumeCalls, hq]

theorem resumeStep_ok (k : ChainID) (s : LogStorage σ) (vars : ChainsDB.ResumeVars)
    (h : s.head.2 = true) (hr : s.rewindToHead.1 = none) :
    ChainsDB.resumeStep k s vars =
      (true, s.afterResume,
        { result := vars.result
          logger := vars.logger.Info "Resuming, starting from last sealed block" "head" s.head.1
          calls := vars.calls ++ resumeCalls (k, s) }) := by
  unfold ChainsDB.resumeStep
  rcases hq : s.LatestSealedBlockNum s.state with ⟨⟨n, ok⟩, st⟩
  have hok : ok = true := by simpa [LogStorage.head, hq] using h
  subst hok
  rcases hw : s.Rewind n st with ⟨r, st'⟩
  have hnone : r = none := by
    simpa [LogStorage.rewindToHead, LogStorage.head, LogStorage.afterQuery, hq, hw] using hr
  subst hnone
  simp [LogStorage.afterResume, LogStorage.rewindToHead, LogStorage.head,
    LogStorage.afterQuery, resumeCalls, hq, hw]

theorem resumeStep_fail (k : ChainID) (s : LogStorage σ) (vars : ChainsDB.ResumeVars)
    (h : s.head.2 = true) (err : Error) (hr : s.rewindToHead.1 = some err) :
    ChainsDB.resumeStep k s vars =
      (false, s.afterResume,
        { result := some (ChainsDB.rewindError k s.head.1)
          logger := vars.logger.Info "Resuming, starting from last sealed block" "head" s.head.1
          calls := vars.calls ++ resumeCalls (k, s) }) := by
  unfold ChainsDB.resumeStep
  rcases hq : s.LatestSealedBlockNum s.state with ⟨⟨n, ok⟩, st⟩
  have hok : ok = true := by simpa [LogStorage.head, hq] using h
  subst hok
  rcases hw : s.Rewind n st with ⟨r, st'⟩
  have hsome : r = some err := by
    simpa [LogStorage.rewindToHead, LogStorage.head, LogStorage.afterQuery, hq, hw] using hr
  subst hsome
  simp [LogStorage.afterResume, LogStorage.rewindToHead, LogStorage.head,
    LogStorage.afterQuery, resumeCalls, hq, hw]

/-- The loop over stores none of whose Rewind fails: every store is visited. -/
theorem rangeLoop_resumeStep_ok (l : List (ChainID × LogStorage σ)) (vars : ChainsDB.ResumeVars)
    (h : ∀ e ∈ l, e.2.head.2 = true → e.2.rewindToHead.1 = none) :
    (RWMap.rangeLoop ChainsDB.resumeStep l vars).1 = l.map (fun e => (e.1, e.2.afterResume)) ∧
    (RWMap.rangeLoop ChainsDB.resumeStep l vars).2.result = vars.result ∧
    (RWMap.rangeLoop ChainsDB.resumeStep l vars).2.calls = vars.calls ++ l.flatMap resumeCalls := by
  induction l generalizing vars with
  | nil => simp [RWMap.rangeLoop]
  | cons e rest ih =>
    obtain ⟨k, s⟩ := e
    have hrest : ∀ e ∈ rest, e.2.head.2 = true → e.2.rewindToHead.1 = none :=
      fun e he => h e (List.mem_cons_of_mem _ he)
    cases hh : s.head.2 with
    | false =>
      obtain ⟨h1, h2, h3⟩ := ih (ChainsDB.resumeStep k s vars).2.2 hrest
      rw [resumeStep_empty k s vars hh] at h1 h2 h3
      simp only [RWMap.rangeLoop, resumeStep_empty k s vars hh]
      simp at h1 h2 h3 ⊢
      exact ⟨h1, h2, h3⟩
    | true =>
      have hr := h (k, s) (List.mem_cons_self _ _) hh
      obtain ⟨h1, h2, h3⟩ := ih (ChainsDB.resumeStep k s vars).2.2 hrest
      rw [resumeStep_ok k s vars hh hr] at h1 h2 h3
      simp only [RWMap.rangeLoop, resumeStep_ok k s vars hh hr]
      simp at h1 h2 h3 ⊢
      exact ⟨h1, h2, h3⟩

/-- The loop up to and including the first store whose Rewind fails: the stores after it
are not visited. -/
theorem rangeLoop_resumeStep_fail (pre post : List (ChainID × LogStorage σ)) (k : ChainID)
    (s : LogStorage σ) (err : Error) (vars : ChainsDB.ResumeVars)
    (h : ∀ e ∈ pre, e.2.head.2 = true → e.2.rewindToHead.1 = none)
    (hh : s.head.2 = true) (hr : s.rewindToHead.1 = some err) :
    (RWMap.rangeLoop ChainsDB.resumeStep (pre ++ (k, s) :: post) vars).1 =
      pre.map (fun e => (e.1, e.2.afterResume)) ++ (k, s.afterResume) :: post ∧
    (RWMap.rangeLoop ChainsDB.resumeStep (pre ++ (k, s) :: post) vars).2.result =
      some (ChainsDB.rewindError k s.head.1) ∧
    (RWMap.rangeLoop ChainsDB.resumeStep (pre ++ (k, s) :: post) vars).2.calls =
      vars.calls ++ (pre.flatMap resumeCalls ++ resumeCalls (k, s)) := by
  induction pre generalizing vars with
  | nil =>
    simp [RWMap.rangeLoop, resumeStep_fail k s vars hh err hr]
  | cons e rest ih =>
    obtain ⟨k', s'⟩ := e
    have hrest : ∀ e ∈ rest, e.2.head.2 = true → e.2.rewindToHead.1 = none :=
      fun e he => h e (List.mem_cons_of_mem _ he)
    cases hh' : s'.head.2 with
    | false =>
      obtain ⟨h1, h2, h3⟩ := ih (ChainsDB.resumeStep k' s' vars).2.2 hrest
      rw [resumeStep_empty k' s' vars hh'] at h1 h2 h3
      simp only [List.cons_append, RWMap.rangeLoop, resumeStep_empty k' s' vars hh']
      simp at h1 h2 h3 ⊢
      exact ⟨h1, h2, h3⟩
    | true =>
      have hr' := h (k', s') (List.mem_cons_self _ _) hh'
      obtain ⟨h1, h2, h3⟩ := ih (ChainsDB.resumeStep k' s' vars).2.2 hrest
      rw [resumeStep_ok k' s' vars hh' hr'] at h1 h2 h3
      simp only [List.cons_append, RWMap.rangeLoop, resumeStep_ok k' s' vars hh' hr']
      simp at h1 h2 h3 ⊢
      exact ⟨h1, h2, h3⟩

/-- Every list of stores either has no failing Rewind, or splits at the first store whose
Rewind fails. -/
theorem first_failure_split (l : List (ChainID × LogStorage σ)) :
    (∀ e ∈ l, e.2.head.2 = true → e.2.rewindToHead.1 = none) ∨
    ∃ pre k s post err, l = pre ++ (k, s) :: post ∧
      (∀ e ∈ pre, e.2.head.2 = true → e.2.rewindToHead.1 = none) ∧
      s.head.2 = true ∧ s.rewindToHead.1 = some err := by
  induction l with
  | nil => left; simp
  | cons e rest ih =>
    obtain ⟨k, s⟩ := e
    by_cases hgood : s.head.2 = true → s.rewindToHead.1 = none
    · rcases ih with hall | ⟨pre, k', s', post, err, hl, hpre, hh, hr⟩
      · left
        intro e he
        rcases List.mem_cons.1 he with rfl | he'
        · exact hgood
        · exact hall e he'
      · right
        refine ⟨(k, s) :: pre, k', s', post, err, by simp [hl], ?_, hh, hr⟩
        intro e he
        rcases List.mem_cons.1 he with rfl | he'
        · exact hgood
        · exact hpre e he'
    · right
      have hh : s.head.2 = true := by
        by_contra hc
        exact hgood (fun h => absurd h hc)
      cases hr : s.rewindToHead.1 with
      | none => exact absurd (fun _ => hr) hgood
      | some err => exact ⟨[], k, s, rest, err, rfl, by simp, hh, hr⟩

theorem filter_rewind_resumeCalls_other (chain : ChainID) (e : ChainID × LogStorage σ)
    (h : e.1 ≠ chain) : callsOn chain (resumeCalls e) = [] := by
  unfold resumeCalls callsOn
  split <;> simp [Call.chain, h]

theorem callsOn_flatMap_resumeCalls_of_not_mem (chain : ChainID)
    (l : List (ChainID × LogStorage σ)) (h : chain ∉ l.map Prod.fst) :
    callsOn chain (l.flatMap resumeCalls) = [] := by
  induction l with
  | nil => simp [callsOn]
  | cons e rest ih =>
    simp only [List.map_cons, List.mem_cons, not_or] at h
    have h1 : callsOn chain (resumeCalls e) = [] :=
      filter_rewind_resumeCalls_other chain e (fun hc => h.1 hc.symm)
    have h2 := ih h.2
    unfold callsOn at h1 h2 ⊢
    simp [List.flatMap_cons, List.filter_append, h1, h2]

theorem rewindCallsOn_resumeCalls_self (e : ChainID × LogStorage σ) :
    rewindCallsOn e.1 (resumeCalls e) =
      if e.2.head.2 then [Call.Rewind e.1 e.2.head.1 e.2.rewindToHead.1] else [] := by
  unfold resumeCalls rewindCallsOn
  split <;> simp [Call.chain, Call.isRewind]

theorem rewindCallsOn_eq_filter_callsOn (chain : ChainID) (calls : List Call) :
    rewindCallsOn chain calls = (callsOn chain calls).filter Call.isRewind := by
  unfold rewindCallsOn callsOn
  rw [List.filter_filter]

theorem rewindCallsOn_flatMap_resumeCalls (l : List (ChainID × LogStorage σ))
    (hn : (l.map Prod.fst).Nodup) (e : ChainID × LogStorage σ) (he : e ∈ l) :
    rewindCallsOn e.1 (l.flatMap resumeCalls) =
      if e.2.head.2 then [Call.Rewind e.1 e.2.head.1 e.2.rewindToHead.1] else [] := by
  induction l with
  | nil => cases he
  | cons x rest ih =>
    simp only [List.map_cons, List.nodup_cons] at hn
    rw [List.flatMap_cons]
    unfold rewindCallsOn
    rw [List.filter_append]
    rcases List.mem_cons.1 he with rfl | he'
    · have h2 := callsOn_flatMap_resumeCalls_of_not_mem e.1 rest hn.1
      have h3 : rewindCallsOn e.1 (rest.flatMap resumeCalls) = [] := by
        rw [rewindCallsOn_eq_filter_callsOn, h2]; rfl
      have h1 := rewindCallsOn_resumeCalls_self e
      unfold rewindCallsOn at h1 h3
      rw [h1, h3, List.append_nil]
    · have hne : x.1 ≠ e.1 := by
        intro hc
        exact hn.1 (hc ▸ List.mem_map_of_mem Prod.fst he')
      have h1 : rewindCallsOn e.1 (resumeCalls x) = [] := by
        rw [rewindCallsOn_eq_filter_callsOn, filter_rewind_resumeCalls_other e.1 x hne]; rfl
      have h2 := ih hn.2 he'
      unfold rewindCallsOn at h1 h2
      rw [h1, h2, List.nil_append]

/-! ## C3 -/

/-- C3: when no Rewind fails (every store that reports a sealed block accepts the Rewind to
that block), `ResumeFromLastSealedBlock` returns nil; the Rewind calls made on the store of
a registered chain are exactly one Rewind to the number that store's
`LatestSealedBlockNum` returned when the store reported a sealed block, and none when it
reported none; and the calls made are, store by store, the query followed by that Rewind.
The hypothesis holds trivially when no store is registered or every store is empty, so the
result is nil in those cases. -/
theorem resume_rewinds_every_store_to_its_sealed_head (db : ChainsDB σ)
    (h : ∀ e ∈ db.logDBs.inner, e.2.head.2 = true → e.2.rewindToHead.1 = none) :
    db.ResumeFromLastSealedBlock.err = none ∧
    (∀ e ∈ db.logDBs.inner,
      rewindCallsOn e.1 db.ResumeFromLastSealedBlock.calls =
        if e.2.head.2 then [Call.Rewind e.1 e.2.head.1 none] else []) ∧
    db.ResumeFromLastSealedBlock.calls = db.logDBs.inner.flatMap resumeCalls := by
  obtain ⟨_, h2, h3⟩ :=
    rangeLoop_resumeStep_ok db.logDBs.inner { result := none, logger := db.logger, calls := [] } h
  have hcalls : db.ResumeFromLastSealedBlock.calls = db.logDBs.inner.flatMap resumeCalls := by
    simpa [ChainsDB.ResumeFromLastSealedBlock, RWMap.Range] using h3
  refine ⟨by simpa [ChainsDB.ResumeFromLastSealedBlock, RWMap.Range] using h2, ?_, hcalls⟩
  intro e he
  rw [hcalls, rewindCallsOn_flatMap_resumeCalls db.logDBs.inner db.logDBs.nodup e he]
  cases hh : e.2.head.2 with
  | false => simp
  | true => simp [h e he hh]

/-- C3, at two stores: chain 1 is sealed up to block 2 and is rewound to 2, chain 2 is empty
and is not rewound. -/
theorem resume_rewinds_every_store_to_its_sealed_head_witness :
    (∀ e ∈ Examples.healthy.logDBs.inner, e.2.head.2 = true → e.2.rewindToHead.1 = none) ∧
    Examples.healthy.ResumeFromLastSealedBlock.err = none ∧
    (∀ e ∈ Examples.healthy.logDBs.inner,
      rewindCallsOn e.1 Examples.healthy.ResumeFromLastSealedBlock.calls =
        if e.2.head.2 then [Call.Rewind e.1 e.2.head.1 none] else []) ∧
    Examples.healthy.ResumeFromLastSealedBlock.calls =
      [Call.LatestSealedBlockNum 1 2 true, Call.Rewind 1 2 none,
        Call.LatestSealedBlockNum 2 0 false] :=
  have h : ∀ e ∈ Examples.healthy.logDBs.inner,
      e.2.head.2 = true → e.2.rewindToHead.1 = none := by decide
  have t := resume_rewinds_every_store_to_its_sealed_head Examples.healthy h
  ⟨h, t.1, t.2.1, by decide⟩

/-! ## C4 -/

/-- C4: `ResumeFromLastSealedBlock` stops at the first chain whose Rewind fails. When the
entries are `pre`, then the store of `chain`, then `post`, no Rewind fails in `pre`, and the
store of `chain` reports a sealed block and fails the Rewind to it, the returned error is
non-nil and its message names the chain and the block number; the calls made are those on
`pre` followed by the query and the failed Rewind on `chain`; no call at all is made on a
store of `post`; and the stores of `post` are as they were. -/
theorem resume_stops_at_first_failing_rewind (db : ChainsDB σ)
    (pre post : List (ChainID × LogStorage σ)) (chain : ChainID) (s : LogStorage σ)
    (err : Error)
    (hsplit : db.logDBs.inner = pre ++ (chain, s) :: post)
    (hpre : ∀ e ∈ pre, e.2.head.2 = true → e.2.rewindToHead.1 = none)
    (hhead : s.head.2 = true) (hfail : s.rewindToHead.1 = some err) :
    db.ResumeFromLastSealedBlock.err = some (ChainsDB.rewindError chain s.head.1) ∧
    (ChainsDB.rewindError chain s.head.1).Message =
      "failed to rewind chain " ++ ChainID.String chain ++ " to sealed block " ++
        Nat.repr s.head.1 ∧
    db.ResumeFromLastSealedBlock.calls =
      pre.flatMap resumeCalls ++
        [Call.LatestSealedBlockNum chain s.head.1 true, Call.Rewind chain s.head.1 (some err)] ∧
    (∀ e ∈ post, callsOn e.1 db.ResumeFromLastSealedBlock.calls = []) ∧
    db.ResumeFromLastSealedBlock.db.logDBs.inner =
      pre.map (fun e => (e.1, e.2.afterResume)) ++ (chain, s.afterResume) :: post := by
  obtain ⟨h1, h2, h3⟩ := rangeLoop_resumeStep_fail pre post chain s err
    { result := none, logger := db.logger, calls := [] } hpre hhead hfail
  have hcalls : db.ResumeFromLastSealedBlock.calls =
      (pre ++ [(chain, s)]).flatMap resumeCalls := by
    simp only [ChainsDB.ResumeFromLastSealedBlock, RWMap.Range, hsplit, h3]
    simp
  have hself : resumeCalls (chain, s) =
      [Call.LatestSealedBlockNum chain s.head.1 true, Call.Rewind chain s.head.1 (some err)] := by
    simp [resumeCalls, hhead, hfail]
  refine ⟨?_, rfl, ?_, ?_, ?_⟩
  · simp only [ChainsDB.ResumeFromLastSealedBlock, RWMap.Range, hsplit, h2]
  · rw [hcalls, List.flatMap_append, ← hself]
    simp
  · intro e he
    rw [hcalls]
    apply callsOn_flatMap_resumeCalls_of_not_mem
    have hn := db.logDBs.nodup
    rw [hsplit] at hn
    have hre : pre ++ (chain, s) :: post = (pre ++ [(chain, s)]) ++ post := by simp
    rw [hre, List.map_append, List.nodup_append] at hn
    intro hmem
    exact hn.2.2 hmem (List.mem_map_of_mem Prod.fst he)
  · simp only [ChainsDB.ResumeFromLastSealedBlock, RWMap.Range, hsplit, h1]

/-- C4, at three stores of which the second fails: the error names chain 2 and block 2, and
chain 3 is never called. -/
theorem resume_stops_at_first_failing_rewind_witness :
    Examples.secondFails.ResumeFromLastSealedBlock.err =
      some (.errorString "failed to rewind chain 2 to sealed block 2") ∧
    Examples.secondFails.ResumeFromLastSealedBlock.calls =
      [Call.LatestSealedBlockNum 1 2 true, Call.Rewind 1 2 none,
        Call.LatestSealedBlockNum 2 2 true, Call.Rewind 2 2 (some LogDB.diskFailure)] ∧
    callsOn 3 Examples.secondFails.ResumeFromLastSealedBlock.calls = [] :=
  have t := resume_stops_at_first_failing_rewind Examples.secondFails
    [(1, LogDB.sealedTo2Pending.store)] [(3, LogDB.sealedTo2Pending.store)] 2
    Examples.faultyStore LogDB.diskFailure rfl (by decide) (by decide) (by decide)
  ⟨t.1.trans (by decide), t.2.2.1.trans (by decide),
    t.2.2.2.1 (3, LogDB.sealedTo2Pending.store) (List.mem_singleton.2 rfl)⟩

/-! ## C5 -/

/-- C5, evaluated where it fails: one chain whose store is sealed up to block 2 and whose
Rewind fails with the disk failure. `ResumeFromLastSealedBlock` calls Rewind, gets the disk
failure, and returns an error that has nothing to unwrap: the disk failure is not
recoverable from it. `Close` on the same database returns an error from which the disk
failure is recoverable. -/
theorem resume_error_drops_the_rewind_error :
    Examples.onlyFaulty.ResumeFromLastSealedBlock.calls =
      [Call.LatestSealedBlockNum 1 2 true, Call.Rewind 1 2 (some LogDB.diskFailure)] ∧
    Examples.onlyFaulty.ResumeFromLastSealedBlock.err =
      some (.errorString "failed to rewind chain 1 to sealed block 2") ∧
    Examples.onlyFaulty.ResumeFromLastSealedBlock.err.map Error.Unwrap = some [] ∧
    errors.Is Examples.onlyFaulty.ResumeFromLastSealedBlock.err LogDB.diskFailure = false ∧
    errors.Is Examples.onlyFaulty.Close.err LogDB.diskFailure = true := by
  decide

/-! ## C6 -/

/-- C6: `SubscribeCrossSafe` returns an error exactly when the chain has no cross-safe feed,
and `SubscribeFinalized` exactly when it has no finality feed. In that case no handle is
returned, the error is the one that wraps `ErrUnknownChain` and whose message ends with the
chain, and the database, with every feed and its channels, is as it was. -/
theorem subscribe_fails_iff_chain_has_no_feed (db : ChainsDB σ) (chainID : ChainID) (c : Chan) :
    ((db.SubscribeCrossSafe chainID c).1.2.isSome = true ↔
      db.crossSafeSubscription.Has chainID = false) ∧
    (db.crossSafeSubscription.Has chainID = false →
      (db.SubscribeCrossSafe chainID c).1 = (none, some (ChainsDB.subscribeError chainID)) ∧
      (db.SubscribeCrossSafe chainID c).2 = db) ∧
    ((db.SubscribeFinalized chainID c).1.2.isSome = true ↔
      db.l2FinalitySubscription.Has chainID = false) ∧
    (db.l2FinalitySubscription.Has chainID = false →
      (db.SubscribeFinalized chainID c).1 = (none, some (ChainsDB.subscribeError chainID)) ∧
      (db.SubscribeFinalized chainID c).2 = db) ∧
    (ChainsDB.subscribeError chainID).Unwrap = [ErrUnknownChain] ∧
    errors.Is (some (ChainsDB.subscribeError chainID)) ErrUnknownChain = true ∧
    (ChainsDB.subscribeError chainID).Message =
      "cannot subscribe to cross-safe: unknown chain: " ++ ChainID.String chainID := by
  refine ⟨?_, ?_, ?_, ?_, rfl, ?_, ?_⟩
  · unfold ChainsDB.SubscribeCrossSafe RWMap.Has
    cases db.crossSafeSubscription.Get chainID <;> simp
  · intro h
    unfold ChainsDB.SubscribeCrossSafe
    unfold RWMap.Has at h
    cases hg : db.crossSafeSubscription.Get chainID with
    | none => simp
    | some p => simp [hg] at h
  · unfold ChainsDB.SubscribeFinalized RWMap.Has
    cases db.l2FinalitySubscription.Get chainID <;> simp
  · intro h
    unfold ChainsDB.SubscribeFinalized
    unfold RWMap.Has at h
    cases hg : db.l2FinalitySubscription.Get chainID with
    | none => simp
    | some p => simp [hg] at h
  · simp [errors.Is, ChainsDB.subscribeError, Error.tree, ErrUnknownChain]
  · simp [ChainsDB.subscribeError, Error.Message, ErrUnknownChain]

/-! ## Lemmas on `Set` -/

theorem find_setEntry_self {K V : Type} [DecidableEq K] (key : K) (value : V)
    (l : List (K × V)) :
    (RWMap.setEntry key value l).find? (fun e => decide (e.1 = key)) = some (key, value) := by
  induction l with
  | nil => simp [RWMap.setEntry]
  | cons e rest ih =>
    by_cases h : e.1 = key
    · simp [RWMap.setEntry, h]
    · simp [RWMap.setEntry, h, List.find?_cons, ih]

theorem find_setEntry_other {K V : Type} [DecidableEq K] (key other : K) (value : V)
    (l : List (K × V)) (hne : other ≠ key) :
    (RWMap.setEntry key value l).find? (fun e => decide (e.1 = other)) =
      l.find? (fun e => decide (e.1 = other)) := by
  induction l with
  | nil => simp [RWMap.setEntry, hne.symm]
  | cons e rest ih =>
    by_cases h : e.1 = key
    · have h' : ¬ e.1 = other := fun hc => hne (hc.symm.trans h)
      simp [RWMap.setEntry, h, List.find?_cons, hne.symm]
    · simp only [RWMap.setEntry, h, if_false, List.find?_cons, ih]

/-- Setting a key overwrites: the key maps to the new value, the others are untouched, and
the key has one entry. -/
theorem set_overwrites {K V : Type} [DecidableEq K] (m : RWMap K V) (key : K) (value : V) :
    m.Overwrites (m.Set key value) key value := by
  have hget : (m.Set key value).Get key = some value := by
    simp [RWMap.Get, RWMap.Set, find_setEntry_self]
  refine ⟨hget, ?_, ?_⟩
  · intro other hne
    simp [RWMap.Get, RWMap.Set, find_setEntry_other key other value m.inner hne]
  · rw [filter_key_map_of_nodup (m.Set key value).inner (m.Set key value).nodup key]
    have hhas : (m.Set key value).Has key = true := by simp [RWMap.Has, hget]
    simp [(has_iff_mem_keys (m.Set key value) key).1 hhas]

/-! ## C7 -/

/-- C7: registration is by overwrite. For every database and chain, whether or not the chain
was registered before, each of `AddLogDB`, `AddLocalDerivedFromDB`, `AddCrossDerivedFromDB`
and `AddCrossUnsafeTracker` (none of which can fail: they return no error) leaves its
collection mapping the chain to the store given, every other chain as before, and one
entry for the chain. For `AddCrossUnsafeTracker` the value is a pointer that was not
allocated before and that refers to a zero-valued tracker, the earlier objects being
untouched. Registering a second time on top of the first leaves the second store. -/
theorem registration_is_by_overwrite (db : ChainsDB σ) (chainID : ChainID)
    (logDB logDB2 : LogStorage σ) (dfDB dfDB2 : LocalDerivedFromStorage)
    (xDB xDB2 : CrossDerivedFromStorage) :
    db.logDBs.Overwrites (db.AddLogDB chainID logDB).logDBs chainID logDB ∧
    db.localDBs.Overwrites (db.AddLocalDerivedFromDB chainID dfDB).localDBs chainID dfDB ∧
    db.crossDBs.Overwrites (db.AddCrossDerivedFromDB chainID xDB).crossDBs chainID xDB ∧
    (db.crossUnsafe.Overwrites (db.AddCrossUnsafeTracker chainID).crossUnsafe chainID
        db.objects.cells.length ∧
      db.objects.allocated db.objects.cells.length = false ∧
      (db.AddCrossUnsafeTracker chainID).objects.get db.objects.cells.length =
        some (.tracker BlockSeal.zero) ∧
      ∀ p : Ptr, db.objects.allocated p = true →
        (db.AddCrossUnsafeTracker chainID).objects.get p = db.objects.get p) ∧
    (db.AddLogDB chainID logDB).logDBs.Overwrites
      ((db.AddLogDB chainID logDB).AddLogDB chainID logDB2).logDBs chainID logDB2 ∧
    (db.AddLocalDerivedFromDB chainID dfDB).localDBs.Overwrites
      ((db.AddLocalDerivedFromDB chainID dfDB).AddLocalDerivedFromDB chainID dfDB2).localDBs
      chainID dfDB2 ∧
    (db.AddCrossDerivedFromDB chainID xDB).crossDBs.Overwrites
      ((db.AddCrossDerivedFromDB chainID xDB).AddCrossDerivedFromDB chainID xDB2).crossDBs
      chainID xDB2 ∧
    (db.AddCrossUnsafeTracker chainID).crossUnsafe.Overwrites
      ((db.AddCrossUnsafeTracker chainID).AddCrossUnsafeTracker chainID).crossUnsafe
      chainID (db.objects.cells.length + 1) := by
  refine ⟨set_overwrites _ _ _, set_overwrites _ _ _, set_overwrites _ _ _,
    ⟨set_overwrites _ _ _, ?_, ?_, ?_⟩, set_overwrites _ _ _, set_overwrites _ _ _,
    set_overwrites _ _ _, ?_⟩
  · simp [Heap.allocated]
  · simp [ChainsDB.AddCrossUnsafeTracker, Heap.alloc, Heap.get]
  · intro p hp
    have hlt : p < db.objects.cells.length := by simpa [Heap.allocated] using hp
    simp [ChainsDB.AddCrossUnsafeTracker, Heap.alloc, Heap.get, List.getElem?_append_left hlt]
  · have h := set_overwrites (db.AddCrossUnsafeTracker chainID).crossUnsafe chainID
      (db.AddCrossUnsafeTracker chainID).objects.cells.length
    have hlen : (db.AddCrossUnsafeTracker chainID).objects.cells.length =
        db.objects.cells.length + 1 := by
      simp [ChainsDB.AddCrossUnsafeTracker, Heap.alloc]
    rw [← hlen]
    exact h

/-! ## C8 -/

/-- C8 as stated fails: chain 1 has its feeds, with channel 7 subscribed on the cross-safe
feed; a second `AddSubscriptions` for chain 1 does not replace them by fresh feeds. The
chain still maps to the feeds of the first call (addresses 0 and 1) and channel 7 is still
subscribed. -/
theorem addSubscriptions_twice_keeps_first_feeds :
    Examples.feedsRegistered.l2FinalitySubscription.Has 1 = true ∧
    ¬ ChainsDB.ReplacesFeeds Examples.feedsRegistered
        (Examples.feedsRegistered.AddSubscriptions 1) 1 ∧
    (Examples.feedsRegistered.AddSubscriptions 1).l2FinalitySubscription.Get 1 = some 0 ∧
    (Examples.feedsRegistered.AddSubscriptions 1).crossSafeSubscription.Get 1 = some 1 ∧
    (Examples.feedsRegistered.AddSubscriptions 1).objects.get 1 = some (.crossSafeFeed [7]) := by
  refine ⟨by decide, ?_, by decide, by decide, by decide⟩
  rintro ⟨pf, pc, h1, _, h3, _⟩
  have hpf : (Examples.feedsRegistered.AddSubscriptions 1).l2FinalitySubscription.Get 1 =
      some 0 := by decide
  rw [hpf] at h1
  cases h1
  revert h3
  decide

/-- C8, amended: `AddSubscriptions` does not overwrite. For a chain that already has a
finality feed or a cross-safe feed it writes a warning and leaves both feed collections
and every allocated object (hence the channels subscribed on the feeds) as they were; for
a chain with neither it registers two fresh feeds without channels, leaves the other
chains as they were, and allocates nothing else. -/
theorem addSubscriptions_keeps_existing_feeds (db : ChainsDB σ) (chainID : ChainID) :
    (db.l2FinalitySubscription.Has chainID = true ∨
        db.crossSafeSubscription.Has chainID = true →
      (db.AddSubscriptions chainID).l2FinalitySubscription = db.l2FinalitySubscription ∧
      (db.AddSubscriptions chainID).crossSafeSubscription = db.crossSafeSubscription ∧
      (db.AddSubscriptions chainID).objects = db.objects ∧
      (db.AddSubscriptions chainID).logger =
        db.logger.Warn "a subscription for this chain already exists" "chain" chainID) ∧
    (db.l2FinalitySubscription.Has chainID = false ∧
        db.crossSafeSubscription.Has chainID = false →
      ChainsDB.ReplacesFeeds db (db.AddSubscriptions chainID) chainID ∧
      db.l2FinalitySubscription.Overwrites (db.AddSubscriptions chainID).l2FinalitySubscription
        chainID db.objects.cells.length ∧
      db.crossSafeSubscription.Overwrites (db.AddSubscriptions chainID).crossSafeSubscription
        chainID (db.objects.cells.length + 1) ∧
      (db.AddSubscriptions chainID).logger = db.logger) := by
  constructor
  · intro h
    unfold ChainsDB.AddSubscriptions
    cases hf : db.l2FinalitySubscription.Has chainID with
    | true => simp
    | false =>
      have hc : db.crossSafeSubscription.Has chainID = true := by
        rcases h with h | h
        · rw [hf] at h; cases h
        · exact h
      simp [hc]
  · rintro ⟨hf, hc⟩
    have hdb : db.AddSubscriptions chainID =
        { db with
          objects := ⟨db.objects.cells ++ [.finalityFeed []] ++ [.crossSafeFeed []]⟩
          l2FinalitySubscription := db.l2FinalitySubscription.Set chainID db.objects.cells.length
          crossSafeSubscription :=
            db.crossSafeSubscription.Set chainID (db.objects.cells.length + 1) } := by
      simp [ChainsDB.AddSubscriptions, hf, hc, Heap.alloc]
    rw [hdb]
    refine ⟨⟨db.objects.cells.length, db.objects.cells.length + 1,
      (set_overwrites _ _ _).1, (set_overwrites _ _ _).1, ?_, ?_, ?_, ?_⟩,
      set_overwrites _ _ _, set_overwrites _ _ _, rfl⟩
    · simp [Heap.allocated]
    · simp [Heap.allocated]
    · simp only [Heap.get, List.append_assoc]
      rw [List.getElem?_append_right (le_refl _)]
      simp
    · simp only [Heap.get, List.append_assoc]
      rw [List.getElem?_append_right (Nat.le_succ _)]
      simp

/-! ## C9 -/

/-- The spec's log store meets the part of the contract that resuming relies on. -/
theorem LogDB.store_meetsRewindContract (d : LogDB) : (LogDB.store d).MeetsRewindContract := by
  refine ⟨?_, ?_, ?_⟩
  · intro st
    simp only [LogDB.store, LogDB.LatestSealedBlockNum]
    split <;> rfl
  · intro st st' h hq hr
    simp only [LogDB.store, LogDB.LatestSealedBlockNum, LogDB.Rewind] at hq hr ⊢
    rcases hb : st.blocks with _ | ⟨⟨last, logs⟩, rest⟩
    · simp [hb] at hq
    · simp only [hb, Prod.mk.injEq, and_true] at hq
      cases hcl : st.closed with
      | true => simp [hcl] at hr
      | false =>
        cases hfa : st.fault with
        | some e => simp [hcl, hfa] at hr
        | none =>
          simp only [hcl, hfa, Bool.false_eq_true, if_false, Prod.mk.injEq, true_and] at hr
          subst hr
          simp [hb, List.filter_cons, hq]
  · intro st st' h hq hr
    simp only [LogDB.store, LogDB.LatestSealedBlockNum, LogDB.Rewind] at hq hr
    rcases hb : st.blocks with _ | ⟨⟨last, logs⟩, rest⟩
    · simp [hb] at hq
    · simp only [hb, Prod.mk.injEq, and_true] at hq
      cases hcl : st.closed with
      | true => simp [hcl] at hr
      | false =>
        cases hfa : st.fault with
        | some e => simp [hcl, hfa] at hr
        | none =>
          simp only [hcl, hfa, Bool.false_eq_true, if_false, Prod.mk.injEq, true_and] at hr
          subst hr
          refine ⟨last.ID, by simpa [BlockSeal.ID] using hq, ?_⟩
          intro logHash execMsg
          simp [LogDB.store, LogDB.AddLog, hcl, hfa, hb, List.filter_cons, hq]

/-- A nil result of the loop means that no Rewind failed. -/
theorem resume_nil_no_failure (db : ChainsDB σ) (hok : db.ResumeFromLastSealedBlock.err = none) :
    ∀ e ∈ db.logDBs.inner, e.2.head.2 = true → e.2.rewindToHead.1 = none := by
  rcases first_failure_split db.logDBs.inner with hall | ⟨pre, k, s, post, err, hl, hpre, hh, hr⟩
  · exact hall
  · obtain ⟨_, h2, _⟩ := rangeLoop_resumeStep_fail pre post k s err
      { result := none, logger := db.logger, calls := [] } hpre hh hr
    simp [ChainsDB.ResumeFromLastSealedBlock, RWMap.Range, hl, h2] at hok

/-- C9: resuming keeps the sealed data. If the store of every registered chain meets the
contract (`LatestSealedBlockNum` only reads; a successful Rewind to the current head keeps
the head and reopens accumulation on top of it) and `ResumeFromLastSealedBlock` returns
nil, then afterwards the same chains are registered, in the same order, with the same
methods, and for each store: `LatestSealedBlockNum` returns what it returned before; when
that is a sealed block, a fresh log at index 0 on top of that block is accepted; and when
the store is empty its state is untouched. -/
theorem resume_keeps_sealed_data (db : ChainsDB σ)
    (hc : ∀ e ∈ db.logDBs.inner, e.2.MeetsRewindContract)
    (hok : db.ResumeFromLastSealedBlock.err = none) :
    List.Forall₂
      (fun before after : ChainID × LogStorage σ =>
        after.1 = before.1 ∧
        after.2 = { before.2 with state := after.2.state } ∧
        after.2.head = before.2.head ∧
        (before.2.head.2 = true → after.2.OpenAfter before.2.head.1) ∧
        (before.2.head.2 = false → after.2.state = before.2.state))
      db.logDBs.inner db.ResumeFromLastSealedBlock.db.logDBs.inner := by
  have hall := resume_nil_no_failure db hok
  obtain ⟨h1, _, _⟩ := rangeLoop_resumeStep_ok db.logDBs.inner
    { result := none, logger := db.logger, calls := [] } hall
  have hinner : db.ResumeFromLastSealedBlock.db.logDBs.inner =
      db.logDBs.inner.map (fun e => (e.1, e.2.afterResume)) := by
    simpa [ChainsDB.ResumeFromLastSealedBlock, RWMap.Range] using h1
  rw [hinner, List.forall₂_map_right_iff, List.forall₂_same]
  intro e he
  obtain ⟨hq, hk, hre⟩ := hc e he
  have hstate : e.2.afterQuery = e.2.state := hq e.2.state
  cases hh : e.2.head.2 with
  | false =>
    have haft : e.2.afterResume = e.2 := by
      simp [LogStorage.afterResume, hh, hstate]
    simp [haft, hh]
  | true =>
    have hr := hall e he hh
    have hhead : (e.2.LatestSealedBlockNum e.2.state).1 = (e.2.head.1, true) := by
      rw [← hh]; rfl
    have hrew : e.2.Rewind e.2.head.1 e.2.state = (none, e.2.rewindToHead.2) := by
      have : e.2.rewindToHead = e.2.Rewind e.2.head.1 e.2.state := by
        simp [LogStorage.rewindToHead, hstate]
      rw [← this, ← hr]
    have haft : e.2.afterResume = { e.2 with state := e.2.rewindToHead.2 } := by
      simp [LogStorage.afterResume, hh]
    have hkeep := hk e.2.state e.2.rewindToHead.2 e.2.head.1 hhead hrew
    have hopen := hre e.2.state e.2.rewindToHead.2 e.2.head.1 hhead hrew
    refine ⟨rfl, ?_, ?_, ?_, ?_⟩
    · rw [haft]
    · rw [haft]
      show (e.2.LatestSealedBlockNum e.2.rewindToHead.2).1 = e.2.head
      rw [hkeep, ← hh]
    · intro _
      rw [haft]
      exact hopen
    · intro hc2
      cases hc2

/-- C9, at the scenario of the spec: chain 1 is sealed up to block 2 with one pending log on
block 3, chain 2 is empty. After resuming, chain 1 still reports block 2 and accepts a
fresh log at index 0 on top of block 2 (which it did not before). -/
theorem resume_keeps_sealed_data_witness :
    Examples.healthy.ResumeFromLastSealedBlock.err = none ∧
    List.Forall₂
      (fun before after : ChainID × LogStorage LogDB =>
        after.1 = before.1 ∧
        after.2 = { before.2 with state := after.2.state } ∧
        after.2.head = before.2.head ∧
        (before.2.head.2 = true → after.2.OpenAfter before.2.head.1) ∧
        (before.2.head.2 = false → after.2.state = before.2.state))
      Examples.healthy.logDBs.inner
      Examples.healthy.ResumeFromLastSealedBlock.db.logDBs.inner ∧
    (Examples.healthy.logDBs.Get 1).map LogStorage.head = some (2, true) ∧
    (Examples.healthy.ResumeFromLastSealedBlock.db.logDBs.Get 1).map LogStorage.head =
      some (2, true) ∧
    (Examples.healthy.logDBs.Get 1).map
      (fun s => (s.AddLog 14 (LogDB.exampleSeal 2).ID 0 none s.state).1) =
      some (some LogDB.errOutOfOrder) ∧
    (Examples.healthy.ResumeFromLastSealedBlock.db.logDBs.Get 1).map
      (fun s => (s.AddLog 14 (LogDB.exampleSeal 2).ID 0 none s.state).1) = some none :=
  have hinner : Examples.healthy.logDBs.inner =
      [(1, LogDB.sealedTo2Pending.store), (2, LogDB.empty.store)] := rfl
  have hc : ∀ e ∈ Examples.healthy.logDBs.inner, e.2.MeetsRewindContract := by
    intro e he
    rw [hinner] at he
    simp only [List.mem_cons, List.mem_singleton, List.not_mem_nil, or_false] at he
    rcases he with rfl | rfl
    · exact LogDB.store_meetsRewindContract _
    · exact LogDB.store_meetsRewindContract _
  have hok : Examples.healthy.ResumeFromLastSealedBlock.err = none := by decide
  ⟨hok, resume_keeps_sealed_data Examples.healthy hc hok, by decide, by decide, by decide,
    by decide⟩

/-! ## C10 -/

theorem has_set {K V : Type} [DecidableEq K] (m : RWMap K V) (key other : K) (value : V) :
    (m.Set key value).Has other = (decide (other = key) || m.Has other) := by
  by_cases h : other = key
  · subst h
    simp [RWMap.Has, (set_overwrites m other value).1]
  · simp [RWMap.Has, (set_overwrites m key value).2.1 other h, h]

theorem has_of_same_keys {K V : Type} [DecidableEq K] (m m' : RWMap K V)
    (h : m'.inner.map Prod.fst = m.inner.map Prod.fst) (key : K) : m'.Has key = m.Has key := by
  have h1 := has_iff_mem_keys m key
  have h2 := has_iff_mem_keys m' key
  rw [h] at h2
  cases hm : m.Has key <;> cases hm' : m'.Has key <;> simp_all

theorem keys_rangeLoop {K V S : Type} (f : K → V → S → Bool × V × S) (l : List (K × V)) (s : S) :
    (RWMap.rangeLoop f l s).1.map Prod.fst = l.map Prod.fst := by
  induction l generalizing s with
  | nil => rfl
  | cons e rest ih =>
    obtain ⟨k, v⟩ := e
    simp only [RWMap.rangeLoop]
    rcases hf : f k v s with ⟨b, v', s'⟩
    cases b <;> simp [ih]

theorem has_range {K V S : Type} [DecidableEq K] (m : RWMap K V) (f : K → V → S → Bool × V × S)
    (s : S) (key : K) : (m.Range f s).1.Has key = m.Has key :=
  has_of_same_keys m (m.Range f s).1 (keys_rangeLoop f m.inner s) key

/-- One operation: what was present stays present, and what becomes present was registered
by that operation. -/
theorem perform_present (db : ChainsDB σ) (op : Op σ) (coll : Collection) (chain : ChainID) :
    (db.perform op).present coll chain = (db.present coll chain ||
      ((db.perform op).present coll chain && op.registers coll chain)) := by
  cases op with
  | AddLogDB c s =>
    cases coll <;>
      simp [ChainsDB.perform, ChainsDB.present, Op.registers, ChainsDB.AddLogDB, has_set]
    · cases db.logDBs.Has chain <;> simp [eq_comm]
  | AddLocalDerivedFromDB c s =>
    cases coll <;>
      simp [ChainsDB.perform, ChainsDB.present, Op.registers, ChainsDB.AddLocalDerivedFromDB,
        has_set]
    · cases db.localDBs.Has chain <;> simp [eq_comm]
  | AddCrossDerivedFromDB c s =>
    cases coll <;>
      simp [ChainsDB.perform, ChainsDB.present, Op.registers, ChainsDB.AddCrossDerivedFromDB,
        has_set]
    · cases db.crossDBs.Has chain <;> simp [eq_comm]
  | AddCrossUnsafeTracker c =>
    cases coll <;>
      simp [ChainsDB.perform, ChainsDB.present, Op.registers, ChainsDB.AddCrossUnsafeTracker,
        Heap.alloc, has_set]
    · cases db.crossUnsafe.Has chain <;> simp [eq_comm]
  | AddSubscriptions c =>
    cases hf : db.l2FinalitySubscription.Has c <;>
    cases hcs : db.crossSafeSubscription.Has c <;>
    cases coll <;>
      simp [ChainsDB.perform, ChainsDB.present, Op.registers, ChainsDB.AddSubscriptions,
        Heap.alloc, has_set, hf, hcs]
    all_goals first
      | (intro h _; exact h)
      | (cases db.l2FinalitySubscription.Has chain <;>
          cases db.crossSafeSubscription.Has chain <;> simp [eq_comm])
  | SubscribeCrossSafe c ch =>
    cases hg : db.crossSafeSubscription.Get c <;> cases coll <;>
      simp [ChainsDB.perform, ChainsDB.present, Op.registers, ChainsDB.SubscribeCrossSafe, hg]
  | SubscribeFinalized c ch =>
    cases hg : db.l2FinalitySubscription.Get c <;> cases coll <;>
      simp [ChainsDB.perform, ChainsDB.present, Op.registers, ChainsDB.SubscribeFinalized, hg]
  | ResumeFromLastSealedBlock =>
    cases coll <;>
      simp [ChainsDB.perform, ChainsDB.present, Op.registers,
        ChainsDB.ResumeFromLastSealedBlock, has_range]
  | DependencySet =>
    cases coll <;> simp [ChainsDB.perform, ChainsDB.present, Op.registers]
  | Close =>
    cases coll <;>
      simp [ChainsDB.perform, ChainsDB.present, Op.registers, ChainsDB.Close, has_range]

/-- C10: a chain never returns to unregistered and is never registered implicitly. For every
operation of ChainsDB, every collection and every chain: a chain present before the
operation is present after it; a chain present after it was present before, or the
operation is the `Add` method of that collection called for that chain; the same holds
along any sequence of operations; and a freshly constructed ChainsDB has the chain in no
collection. -/
theorem chains_stay_registered_and_only_add_registers (db : ChainsDB σ) (op : Op σ)
    (ops : List (Op σ)) (coll : Collection) (chain : ChainID) (l : Logger)
    (depSet : DependencySet) :
    (db.present coll chain = true → (db.perform op).present coll chain = true) ∧
    ((db.perform op).present coll chain = true →
      db.present coll chain = true ∨ op.registers coll chain = true) ∧
    (db.present coll chain = true →
      (ops.foldl ChainsDB.perform db).present coll chain = true) ∧
    ((ops.foldl ChainsDB.perform db).present coll chain = true →
      db.present coll chain = true ∨ ∃ o ∈ ops, o.registers coll chain = true) ∧
    (NewChainsDB l depSet : ChainsDB σ).present coll chain = false := by
  have hstep : ∀ (d : ChainsDB σ) (o : Op σ),
      (d.present coll chain = true → (d.perform o).present coll chain = true) ∧
      ((d.perform o).present coll chain = true →
        d.present coll chain = true ∨ o.registers coll chain = true) := by
    intro d o
    have h := perform_present d o coll chain
    constructor
    · intro hp
      rw [h, hp]
      rfl
    · intro hp
      rw [h] at hp
      cases hd : d.present coll chain with
      | true => exact Or.inl rfl
      | false =>
        right
        rw [hd] at hp
        simp only [Bool.false_or, Bool.and_eq_true] at hp
        exact hp.2
  refine ⟨(hstep db op).1, (hstep db op).2, ?_, ?_, ?_⟩
  · intro hp
    induction ops generalizing db with
    | nil => exact hp
    | cons o rest ih => exact ih (db.perform o) ((hstep db o).1 hp)
  · intro hp
    induction ops generalizing db with
    | nil => exact Or.inl hp
    | cons o rest ih =>
      rcases ih (db.perform o) hp with h | ⟨o', ho', hr⟩
      · rcases (hstep db o).2 h with h' | h'
        · exact Or.inl h'
        · exact Or.inr ⟨o, List.mem_cons_self _ _, h'⟩
      · exact Or.inr ⟨o', List.mem_cons_of_mem _ ho', hr⟩
  · cases coll <;> rfl

/-! ## C11 -/

/-- One operation keeps the two feed collections on the same chains. -/
theorem perform_feeds_paired (db : ChainsDB σ) (op : Op σ)
    (h : ∀ k, db.l2FinalitySubscription.Has k = db.crossSafeSubscription.Has k) (k : ChainID) :
    (db.perform op).l2FinalitySubscription.Has k =
      (db.perform op).crossSafeSubscription.Has k := by
  cases op with
  | AddLogDB c s => simpa [ChainsDB.perform, ChainsDB.AddLogDB] using h k
  | AddLocalDerivedFromDB c s =>
    simpa [ChainsDB.perform, ChainsDB.AddLocalDerivedFromDB] using h k
  | AddCrossDerivedFromDB c s =>
    simpa [ChainsDB.perform, ChainsDB.AddCrossDerivedFromDB] using h k
  | AddCrossUnsafeTracker c =>
    simpa [ChainsDB.perform, ChainsDB.AddCrossUnsafeTracker, Heap.alloc] using h k
  | AddSubscriptions c =>
    cases hf : db.l2FinalitySubscription.Has c <;>
    cases hcs : db.crossSafeSubscription.Has c <;>
      simp [ChainsDB.perform, ChainsDB.AddSubscriptions, Heap.alloc, has_set, hf, hcs, h k]
  | SubscribeCrossSafe c ch =>
    cases hg : db.crossSafeSubscription.Get c <;>
      simpa [ChainsDB.perform, ChainsDB.SubscribeCrossSafe, hg] using h k
  | SubscribeFinalized c ch =>
    cases hg : db.l2FinalitySubscription.Get c <;>
      simpa [ChainsDB.perform, ChainsDB.SubscribeFinalized, hg] using h k
  | ResumeFromLastSealedBlock =>
    simpa [ChainsDB.perform, ChainsDB.ResumeFromLastSealedBlock] using h k
  | DependencySet => simpa [ChainsDB.perform] using h k
  | Close => simpa [ChainsDB.perform, ChainsDB.Close] using h k

/-- A sequence of operations keeps the two feed collections on the same chains. -/
theorem foldl_perform_feeds_paired (ops : List (Op σ)) (db : ChainsDB σ)
    (h : ∀ k, db.l2FinalitySubscription.Has k = db.crossSafeSubscription.Has k) (k : ChainID) :
    (ops.foldl ChainsDB.perform db).l2FinalitySubscription.Has k =
      (ops.foldl ChainsDB.perform db).crossSafeSubscription.Has k := by
  induction ops generalizing db with
  | nil => exact h k
  | cons o rest ih => exact ih (db.perform o) (perform_feeds_paired db o h)

/-- In a reached state the two feed collections are on the same chains. -/
theorem reached_feeds_paired (l : Logger) (depSet : DependencySet) (ops : List (Op σ))
    (k : ChainID) :
    (ChainsDB.reached l depSet ops : ChainsDB σ).l2FinalitySubscription.Has k =
      (ChainsDB.reached l depSet ops : ChainsDB σ).crossSafeSubscription.Has k :=
  foldl_perform_feeds_paired ops (NewChainsDB l depSet) (fun _ => rfl) k

/-- A sequence of operations keeps a chain in the collection it is in. -/
theorem foldl_perform_present (ops : List (Op σ)) (db : ChainsDB σ) (coll : Collection)
    (chain : ChainID) (h : db.present coll chain = true) :
    (ops.foldl ChainsDB.perform db).present coll chain = true := by
  induction ops generalizing db with
  | nil => exact h
  | cons o rest ih =>
    apply ih
    rw [perform_present, h]
    rfl

theorem subscribeFinalized_succeeds_iff (db : ChainsDB σ) (chain : ChainID) (c : Chan) :
    ((db.SubscribeFinalized chain c).1.2 = none ↔ db.l2FinalitySubscription.Has chain = true) ∧
    ((db.SubscribeFinalized chain c).1.1.isSome = true ↔
      db.l2FinalitySubscription.Has chain = true) := by
  unfold ChainsDB.SubscribeFinalized RWMap.Has
  cases db.l2FinalitySubscription.Get chain <;> simp

theorem subscribeCrossSafe_succeeds_iff (db : ChainsDB σ) (chain : ChainID) (c : Chan) :
    ((db.SubscribeCrossSafe chain c).1.2 = none ↔ db.crossSafeSubscription.Has chain = true) ∧
    ((db.SubscribeCrossSafe chain c).1.1.isSome = true ↔
      db.crossSafeSubscription.Has chain = true) := by
  unfold ChainsDB.SubscribeCrossSafe RWMap.Has
  cases db.crossSafeSubscription.Get chain <;> simp

/-- C11: in every state reached from `NewChainsDB` by a sequence of ChainsDB operations, a
chain has a finality feed exactly when it has a cross-safe feed; hence `SubscribeFinalized`
succeeds for a chain exactly when `SubscribeCrossSafe` does; and once `AddSubscriptions` has
been called for a chain, whatever operations follow, both succeed for that chain: each
returns a handle and a nil error. -/
theorem feeds_are_registered_in_pairs (l : Logger) (depSet : DependencySet)
    (ops later : List (Op σ)) (chain : ChainID) (c c2 : Chan) :
    (ChainsDB.reached l depSet ops : ChainsDB σ).l2FinalitySubscription.Has chain =
      (ChainsDB.reached l depSet ops : ChainsDB σ).crossSafeSubscription.Has chain ∧
    (((ChainsDB.reached l depSet ops : ChainsDB σ).SubscribeFinalized chain c).1.2 = none ↔
      ((ChainsDB.reached l depSet ops : ChainsDB σ).SubscribeCrossSafe chain c2).1.2 = none) ∧
    (((ChainsDB.reached l depSet (ops ++ Op.AddSubscriptions chain :: later) :
          ChainsDB σ).SubscribeFinalized chain c).1.2 = none ∧
      ((ChainsDB.reached l depSet (ops ++ Op.AddSubscriptions chain :: later) :
          ChainsDB σ).SubscribeFinalized chain c).1.1.isSome = true ∧
      ((ChainsDB.reached l depSet (ops ++ Op.AddSubscriptions chain :: later) :
          ChainsDB σ).SubscribeCrossSafe chain c2).1.2 = none ∧
      ((ChainsDB.reached l depSet (ops ++ Op.AddSubscriptions chain :: later) :
          ChainsDB σ).SubscribeCrossSafe chain c2).1.1.isSome = true) := by
  have hpair := reached_feeds_paired (σ := σ) l depSet ops
  refine ⟨hpair chain, ?_, ?_⟩
  · rw [(subscribeFinalized_succeeds_iff _ chain c).1,
      (subscribeCrossSafe_succeeds_iff _ chain c2).1, hpair chain]
  · have hfin : ((ChainsDB.reached l depSet ops : ChainsDB σ).perform
        (Op.AddSubscriptions chain)).present .l2FinalitySubscription chain = true := by
      simp only [ChainsDB.perform, ChainsDB.present, ChainsDB.AddSubscriptions]
      cases hf : (ChainsDB.reached l depSet ops : ChainsDB σ).l2FinalitySubscription.Has chain
      · have hcs := hpair chain
        rw [hf] at hcs
        simp [← hcs, Heap.alloc, has_set]
      · simp [hf]
    have hlater : (ChainsDB.reached l depSet (ops ++ Op.AddSubscriptions chain :: later) :
        ChainsDB σ).l2FinalitySubscription.Has chain = true := by
      have h := foldl_perform_present later _ _ chain hfin
      simpa [ChainsDB.reached, List.foldl_append, ChainsDB.present] using h
    have hlater2 : (ChainsDB.reached l depSet (ops ++ Op.AddSubscriptions chain :: later) :
        ChainsDB σ).crossSafeSubscription.Has chain = true := by
      rw [← reached_feeds_paired (σ := σ) l depSet _ chain]
      exact hlater
    exact ⟨(subscribeFinalized_succeeds_iff _ chain c).1.2 hlater,
      (subscribeFinalized_succeeds_iff _ chain c).2.2 hlater,
      (subscribeCrossSafe_succeeds_iff _ chain c2).1.2 hlater2,
      (subscribeCrossSafe_succeeds_iff _ chain c2).2.2 hlater2⟩

/-! ## C12 -/

/-- C12, evaluated: `InteropAPI.Reset` does not pass through to the backend. Whatever the
backend, the arguments and the depth to which its nested calls are followed, the call has
not returned and the backend is in the state it was in: its `Reset` was never called. On
the counting backend, the backend's own `Reset` returns nil and counts one call. The other
methods return what the method of the same name of the backend returns. -/
theorem interopAPI_reset_never_reaches_the_backend {β : Type} (ib : InteropAPI β)
    (ctx : Context) (unsafeID safeID finalizedID derived derivedFrom : BlockID)
    (blockHash : Hash32) (num : Nat) (nextL1 : BlockRef) (fuel : Nat) (st : β) :
    ib.Reset ctx unsafeID safeID finalizedID fuel st = (none, st) ∧
    Examples.countingAPI.Reset ctx unsafeID safeID finalizedID fuel 0 = (none, 0) ∧
    Examples.countingAPI.backend.Reset ctx unsafeID safeID finalizedID 0 = (none, 1) ∧
    ib.UpdateCrossUnsafe ctx unsafeID st = ib.backend.UpdateCrossUnsafe ctx unsafeID st ∧
    ib.UpdateCrossSafe ctx derived derivedFrom st =
      ib.backend.UpdateCrossSafe ctx derived derivedFrom st ∧
    ib.UpdateFinalized ctx finalizedID st = ib.backend.UpdateFinalized ctx finalizedID st ∧
    ib.AnchorPoint ctx st = ib.backend.AnchorPoint ctx st ∧
    ib.FetchReceipts ctx blockHash st = ib.backend.FetchReceipts ctx blockHash st ∧
    ib.BlockRefByNumber ctx num st = ib.backend.BlockRefByNumber ctx num st ∧
    ib.ChainID ctx st = ib.backend.ChainID ctx st ∧
    ib.ProvideL1 ctx nextL1 st = ib.backend.ProvideL1 ctx nextL1 st := by
  have hreset : ∀ (b : InteropAPI β) (n : Nat) (s : β),
      b.Reset ctx unsafeID safeID finalizedID n s = (none, s) := by
    intro b n
    induction n with
    | zero => intro s; rfl
    | succ n ih => intro s; exact ih s
  have hcount : ∀ n : Nat,
      Examples.countingAPI.Reset ctx unsafeID safeID finalizedID n 0 = (none, 0) := by
    intro n
    induction n with
    | zero => rfl
    | succ n ih => exact ih
  exact ⟨hreset ib fuel st, hcount fuel, rfl, rfl, rfl, rfl, rfl, rfl, rfl, rfl, rfl⟩

end OpSupervisor
